import Mathlib

/-!
A shallow embedding of the semver module found at
src/.deno/gen/https/deno.land/f2aebce0...a7b3.js (a Deno port of node-semver),
together with theorems checking the repository specification's claims about
version ordering, range satisfaction, caret desugaring, the error policy of
parse / satisfies / inc, range intersection symmetry, formatting, and sorting.

JavaScript numbers are IEEE-754 doubles; where the source coerces a decimal
digit string to a number (unary plus) we model the rounded value with
an explicit round-to-nearest-even function on naturals.  Exceptions are
modelled with Except, mutation by returning the new value.
-/

namespace SemverSpec

/-- Number.MAX_SAFE_INTEGER = 2^53 - 1. -/
def maxSafeInteger : Nat := 2 ^ 53 - 1

/-- Auxiliary: floor of log2 with explicit fuel so the kernel can evaluate it.
The fuel bound 2000 covers every value expressible with 256 decimal digits. -/
def log2F : Nat → Nat → Nat
  | 0, _ => 0
  | fuel + 1, n => if n < 2 then 0 else log2F fuel (n / 2) + 1

/-- The IEEE-754 double value of a natural number: values below 2^53 are
exact, larger values are rounded to 53 significant bits, ties to even.
This models the JavaScript unary-plus coercion of a digit string. -/
def jsDouble (n : Nat) : Nat :=
  if n < 2 ^ 53 then n
  else
    let k := log2F 2000 n
    let shift := k - 52
    let q := n / 2 ^ shift
    let r := n % 2 ^ shift
    let half := 2 ^ (shift - 1)
    if half < r ∨ (r = half ∧ q % 2 = 1) then (q + 1) * 2 ^ shift else q * 2 ^ shift

/-- A prerelease identifier as stored by the SemVer constructor: digit-only
identifiers whose coerced value is below MAX_SAFE_INTEGER are stored as
numbers, everything else stays a string. -/
inductive Ident where
  | num (n : Nat)
  | str (s : String)
deriving DecidableEq, Repr

/-- The test `/^[0-9]+$/.test(a)` from compareIdentifiers, after JavaScript
coerces the identifier to a string (a stored number always prints as a
digit run). -/
def identNumeric : Ident → Bool
  | .num _ => true
  | .str s => !s.data.isEmpty && s.data.all (·.isDigit)

/-- Value of a digit string. -/
def digitsVal (cs : List Char) : Nat :=
  cs.foldl (fun acc c => acc * 10 + (c.toNat - 48)) 0

/-- The numeric value `+a` used by compareIdentifiers when both identifiers
pass the numeric test: stored numbers are already doubles, digit strings are
coerced (with double rounding). -/
def identVal : Ident → Nat
  | .num n => n
  | .str s => jsDouble (digitsVal s.data)

/-- JavaScript `<` on two strings: lexicographic comparison by code unit. -/
def strLtChars : List Char → List Char → Bool
  | [], [] => false
  | [], _ :: _ => true
  | _ :: _, [] => false
  | a :: as, b :: bs => if a.toNat < b.toNat then true else if b.toNat < a.toNat then false else strLtChars as bs

/-- JavaScript `a < b` for the final branch of compareIdentifiers (only
reached with two non-numeric strings). -/
def identLt : Ident → Ident → Bool
  | .str a, .str b => strLtChars a.data b.data
  | _, _ => false

/-- compareIdentifiers from the source: if both identifiers look numeric they
are coerced with unary plus and compared as numbers, otherwise a numeric
identifier sorts below a string and two strings compare lexicographically. -/
def compareIdentifiers (a b : Ident) : Int :=
  let anum := identNumeric a
  let bnum := identNumeric b
  if anum && bnum then
    let x := identVal a
    let y := identVal b
    if x = y then 0 else if x < y then -1 else 1
  else
    if a = b then 0
    else if anum && !bnum then -1
    else if bnum && !anum then 1
    else if identLt a b then -1 else 1

/-- The parsed SemVer value: main triple, prerelease identifiers, build
identifiers.  The source's `raw`/`version` string fields are recomputed by
`format` and are not part of the comparison state. -/
structure SemVer where
  major : Nat
  minor : Nat
  patch : Nat
  prerelease : List Ident
  build : List String
deriving DecidableEq, Repr

/-- The do/while loop shared by comparePre and compareBuild: walk both lists,
`continue` on strictly-equal entries, stop at the first difference; a list
that runs out first is smaller. -/
def cmpIdentList : List Ident → List Ident → Int
  | [], [] => 0
  | _ :: _, [] => 1
  | [], _ :: _ => -1
  | a :: as, b :: bs => if a = b then cmpIdentList as bs else compareIdentifiers a b

/-- SemVer.compareMain: majors, then minors, then patches, each through
compareIdentifiers on numbers. -/
def compareMain (v w : SemVer) : Int :=
  let cM := compareIdentifiers (.num v.major) (.num w.major)
  if cM ≠ 0 then cM
  else
    let cm := compareIdentifiers (.num v.minor) (.num w.minor)
    if cm ≠ 0 then cm else compareIdentifiers (.num v.patch) (.num w.patch)

/-- SemVer.comparePre: a release (empty prerelease) is greater than any
prerelease of the same triple; otherwise the positional loop decides. -/
def comparePre (v w : SemVer) : Int :=
  if !v.prerelease.isEmpty && w.prerelease.isEmpty then -1
  else if v.prerelease.isEmpty && !w.prerelease.isEmpty then 1
  else if v.prerelease.isEmpty && w.prerelease.isEmpty then 0
  else cmpIdentList v.prerelease w.prerelease

/-- SemVer.compare: compareMain || comparePre (build metadata ignored). -/
def compare (v w : SemVer) : Int :=
  let m := compareMain v w
  if m ≠ 0 then m else comparePre v w

/-- SemVer.compareBuild's loop over the build lists (build identifiers are
never numberified, they are raw strings). -/
def cmpBuildList : List String → List String → Int
  | [], [] => 0
  | _ :: _, [] => 1
  | [], _ :: _ => -1
  | a :: as, b :: bs => if a = b then cmpBuildList as bs else compareIdentifiers (.str a) (.str b)

/-- Exported compareBuild: versionA.compare(versionB) || versionA.compareBuild(versionB). -/
def compareBuild (v w : SemVer) : Int :=
  let c := compare v w
  if c ≠ 0 then c else cmpBuildList v.build w.build

/-! ### The version grammar (the FULL regular expression) -/

/-- A regex `\s` character (ASCII part). -/
def isWsChar (c : Char) : Bool :=
  c = ' ' || c = '\t' || c = '\n' || c = '\x0d' || c = '\x0b' || c = '\x0c'

/-- String.prototype.trim. -/
def trimChars (cs : List Char) : List Char :=
  ((cs.dropWhile isWsChar).reverse.dropWhile isWsChar).reverse

/-- Character class `[0-9A-Za-z-]` of prerelease/build identifiers. -/
def isIdChar (c : Char) : Bool :=
  c.isDigit || c.isAlpha || c = '-'

/-- NUMERICIDENTIFIER `0|[1-9]\d*`: a maximal digit run, with a leading zero
only allowed for the single digit `0` (a longer run starting with `0` makes
the whole anchored match fail, because after giving back digits the
following mandatory dot cannot match a digit). -/
def numIdOk (cs : List Char) : Bool :=
  !cs.isEmpty && cs.all (·.isDigit) && (cs = ['0'] || cs.head? ≠ some '0')

/-- A prerelease identifier chunk: `NUMERICIDENTIFIER | \d*[a-zA-Z-][a-zA-Z0-9-]*`,
i.e. within the identifier alphabet either a well-formed number or anything
containing at least one non-digit. -/
def preChunkOk (cs : List Char) : Bool :=
  !cs.isEmpty && cs.all isIdChar && (numIdOk cs || cs.any (fun c => !c.isDigit))

/-- A build identifier chunk: `[0-9A-Za-z-]+`. -/
def buildChunkOk (cs : List Char) : Bool :=
  !cs.isEmpty && cs.all isIdChar

/-- Split on `.` (String.prototype.split with a literal separator). -/
def splitDots : List Char → List (List Char)
  | [] => [[]]
  | c :: cs =>
      let rest := splitDots cs
      if c = '.' then [] :: rest
      else
        match rest with
        | r :: rs => (c :: r) :: rs
        | [] => [[c]]

/-- The capture groups of the FULL regex: digit values of the main triple and
the raw prerelease/build chunks. -/
structure RawVer where
  major : Nat
  minor : Nat
  patch : Nat
  pre : List (List Char)
  build : List (List Char)
deriving DecidableEq, Repr

/-- Take the maximal digit run. -/
def takeDigits (cs : List Char) : List Char × List Char :=
  (cs.takeWhile (·.isDigit), cs.dropWhile (·.isDigit))

/-- Match the optional tail `(-PRERELEASE)?(\+BUILD)?$` of the FULL pattern,
returning the two chunk-list captures.  The prerelease section runs up to
the `+` that starts the build section (`+` cannot occur inside an
identifier); anything left over besides these two sections fails the
anchored match. -/
def tailParse (r3 : List Char) : Option (List (List Char) × List (List Char)) :=
  match r3 with
  | [] => some ([], [])
  | '-' :: rest =>
    if !(splitDots (rest.takeWhile (· ≠ '+'))).all preChunkOk then none
    else
      match rest.dropWhile (· ≠ '+') with
      | [] => some (splitDots (rest.takeWhile (· ≠ '+')), [])
      | '+' :: bres =>
        if (splitDots bres).all buildChunkOk then
          some (splitDots (rest.takeWhile (· ≠ '+')), splitDots bres)
        else none
      | _ => none
  | '+' :: bres =>
    if (splitDots bres).all buildChunkOk then some ([], splitDots bres) else none
  | _ => none

/-- Match `(NUM)\.(NUM)\.(NUM)` followed by the optional tail. -/
def matchCore (cs : List Char) : Option RawVer :=
  if !numIdOk (cs.takeWhile (·.isDigit)) then none
  else match cs.dropWhile (·.isDigit) with
  | '.' :: r1' =>
    if !numIdOk (r1'.takeWhile (·.isDigit)) then none
    else match r1'.dropWhile (·.isDigit) with
    | '.' :: r2' =>
      if !numIdOk (r2'.takeWhile (·.isDigit)) then none
      else match tailParse (r2'.dropWhile (·.isDigit)) with
        | none => none
        | some (preChunks, buildChunks) =>
          some { major := digitsVal (cs.takeWhile (·.isDigit))
                 minor := digitsVal (r1'.takeWhile (·.isDigit))
                 patch := digitsVal (r2'.takeWhile (·.isDigit))
                 pre := preChunks, build := buildChunks }
    | _ => none
  | _ => none

/-- Anchored match of the FULL version pattern
`^v?(NUM)\.(NUM)\.(NUM)(-PRE)?(\+BUILD)?$`, returning the captures.
Backtracking never changes the outcome on this grammar (each component is
delimited by a character that cannot occur inside it), so maximal munch is
faithful. -/
def matchFull (cs0 : List Char) : Option RawVer :=
  matchCore (match cs0 with
    | 'v' :: rest => rest
    | _ => cs0)

/-- Numberify a prerelease chunk as the constructor does: digit-only chunks
whose coerced double is below MAX_SAFE_INTEGER become numbers. -/
def numberify (cs : List Char) : Ident :=
  if !cs.isEmpty && cs.all (·.isDigit) then
    let num := jsDouble (digitsVal cs)
    if num < maxSafeInteger then .num num else .str ⟨cs⟩
  else .str ⟨cs⟩

/-- The SemVer constructor on a string: length guard, trim, FULL match,
safe-integer guards on the main triple (the coerced double value is
compared against MAX_SAFE_INTEGER), then numberification.  Throws are
modelled as Except.error with the source's message. -/
def semverNew (s : String) : Except String SemVer :=
  if s.data.length > 256 then .error "version is longer than 256 characters"
  else
    match matchFull (trimChars s.data) with
    | none => .error ("Invalid Version: " ++ s)
    | some raw =>
      if jsDouble raw.major > maxSafeInteger then .error "Invalid major version"
      else if jsDouble raw.minor > maxSafeInteger then .error "Invalid minor version"
      else if jsDouble raw.patch > maxSafeInteger then .error "Invalid patch version"
      else .ok { major := jsDouble raw.major, minor := jsDouble raw.minor
                 patch := jsDouble raw.patch
                 prerelease := raw.pre.map numberify
                 build := raw.build.map (fun cs => (⟨cs⟩ : String)) }

/-- Exported parse: null on over-long input, null when the untrimmed string
fails the FULL regex, and null when the constructor throws. -/
def parse (s : String) : Option SemVer :=
  if s.data.length > 256 then none
  else if (matchFull s.data).isNone then none
  else (semverNew s).toOption

/-- Identifier rendering inside format (numbers print in decimal). -/
def identText : Ident → String
  | .num n => Nat.repr n
  | .str s => s

/-- SemVer.format: major.minor.patch plus a `-`-prefixed prerelease suffix;
build metadata never appears. -/
def SemVer.format (v : SemVer) : String :=
  Nat.repr v.major ++ "." ++ Nat.repr v.minor ++ "." ++ Nat.repr v.patch ++
    (if v.prerelease.isEmpty then "" else "-" ++ String.intercalate "." (v.prerelease.map identText))

/-- Exported valid: the canonical `version` field of the parses, else null. -/
def valid (s : String) : Option String :=
  (parse s).map SemVer.format

/-- Exported compare on version strings: both constructors may throw. -/
def compareStr (a b : String) : Except String Int := do
  let v ← semverNew a
  let w ← semverNew b
  .ok (compare v w)

/-! ### Comparators and ranges -/

/-- A comparator operator after construction: `=` is normalized to the empty
operator, so the stored operator is one of `"" < <= > >="`. -/
inductive Op where
  | eq
  | lt
  | le
  | gt
  | ge
deriving DecidableEq, Repr

/-- Rendering of a stored operator (`Op.eq` renders as the empty string). -/
def Op.text : Op → String
  | .eq => ""
  | .lt => "<"
  | .le => "<="
  | .gt => ">"
  | .ge => ">="

/-- A comparator: either the ANY sentinel (empty string comparator, operator
`""`) or an operator together with a semver. -/
inductive Comparator where
  | any
  | op (o : Op) (sv : SemVer)
deriving DecidableEq, Repr

/-- Comparator.value: empty for ANY, otherwise operator text followed by the
semver's canonical `version` string (format drops build metadata). -/
def Comparator.value : Comparator → String
  | .any => ""
  | .op o sv => o.text ++ sv.format

/-- cmp(v1, operator, v2) for the operators reachable from Comparator.test. -/
def cmpOp (v : SemVer) (o : Op) (w : SemVer) : Bool :=
  match o with
  | .eq => compare v w = 0
  | .lt => compare v w < 0
  | .le => compare v w ≤ 0
  | .gt => compare v w > 0
  | .ge => compare v w ≥ 0

/-- Comparator.test on an already-parsed version. -/
def Comparator.test (c : Comparator) (v : SemVer) : Bool :=
  match c with
  | .any => true
  | .op o sv => cmpOp v o sv

/-- Range options: only includePrerelease matters. -/
structure Options where
  includePrerelease : Bool
deriving DecidableEq, Repr

/-- The defaulted options used whenever the caller passes none. -/
def defaultOpts : Options := { includePrerelease := false }

/-- A parsed range: OR-of-AND comparator sets plus the options captured at
construction time. -/
structure RangeS where
  set : List (List Comparator)
  includePrerelease : Bool
deriving DecidableEq, Repr

/-- The prerelease-exclusion scan body: a non-ANY comparator whose own
semver carries a prerelease and pins exactly the version's main triple. -/
def pins (c : Comparator) (v : SemVer) : Bool :=
  match c with
  | .any => false
  | .op _ sv => !sv.prerelease.isEmpty &&
      sv.major = v.major && sv.minor = v.minor && sv.patch = v.patch

/-- testSet: every comparator of the clause must accept the version; a
prerelease version additionally needs (unless includePrerelease) some
non-ANY comparator in the *same* clause whose semver pins exactly its
main triple and itself carries a prerelease. -/
def testSet (set : List Comparator) (v : SemVer) (opts : Options) : Bool :=
  if !(set.all (fun c => c.test v)) then false
  else if !v.prerelease.isEmpty && !opts.includePrerelease then
    set.any (fun c => pins c v)
  else true

/-- Range.test on an already-parsed version: some clause passes testSet. -/
def rangeTest (r : RangeS) (v : SemVer) : Bool :=
  r.set.any (fun set => testSet set v { includePrerelease := r.includePrerelease })

/-- Range.test on a version string: the string is parsed with the range's
options first and a parse failure escapes (there is no try/catch here). -/
def rangeTestStr (r : RangeS) (version : String) : Except String Bool := do
  let v ← semverNew version
  .ok (rangeTest r v)

/-! ### The range rewrite pipeline

Every rewrite regex in the source is anchored (or, for STAR, searched
leftmost); on the grammar at hand greedy matching is deterministic, so each
is transcribed as a deterministic scanner.  String captures of numeric
components are re-rendered through `Nat.repr`; this agrees with the
JavaScript number-to-string conversion for every value below 10^21 (beyond
that JavaScript switches to exponent notation, which then fails the
comparator grammar exactly as the re-rendered decimal does, since such
values exceed MAX_SAFE_INTEGER). -/

/-- An x-range identifier capture: `x`, `X`, `*`, or a numeric identifier. -/
inductive XId where
  | xc (c : Char)
  | num (n : Nat)
deriving DecidableEq, Repr

/-- isX from the source: a missing capture, `x`/`X`, or `*`. -/
def isX : Option XId → Bool
  | none => true
  | some (.xc _) => true
  | some (.num _) => false

/-- Render a capture back into the rewritten string. -/
def XId.text : XId → List Char
  | .xc c => [c]
  | .num n => (Nat.repr n).data

/-- The JavaScript `+capture + 1` increment (double rounding applied to the
coercion and to the addition). -/
def incCapture (n : Nat) : Nat := jsDouble (jsDouble n + 1)

/-- The captures of one XRANGEPLAIN match, together with the whole matched
slice (used verbatim by the hyphen rewrite). -/
structure XPlain where
  text : List Char
  cM : XId
  cm : Option XId
  cp : Option XId
  pr : Option (List Char)
  bld : Option (List Char)
deriving DecidableEq, Repr

/-- Parse one XRANGEIDENTIFIER (`NUMERICIDENTIFIER|x|X|*`). -/
def parseXId (cs : List Char) : Option (XId × List Char) :=
  match cs with
  | [] => none
  | c :: rest =>
    if c = 'x' || c = 'X' || c = '*' then some (.xc c, rest)
    else if c.isDigit then
      let (d, r) := takeDigits cs
      if numIdOk d then some (.num (digitsVal d), r) else none
    else none

/-- Parse a dot-separated identifier chunk list (the PRERELEASE / BUILD tail
groups).  Fueled recursion; the fuel is always instantiated with the input
length, which bounds the number of chunks. -/
def parseChunks (chunkOk : List Char → Bool) : Nat → List Char → Option (List (List Char) × List Char)
  | 0, _ => none
  | fuel + 1, cs =>
    let chunk := cs.takeWhile isIdChar
    let rest := cs.dropWhile isIdChar
    if !chunkOk chunk then none
    else match rest with
      | '.' :: more =>
        match parseChunks chunkOk fuel more with
        | some (chs, r) => some (chunk :: chs, r)
        | none => none
      | _ => some ([chunk], rest)

/-- Anchored scan of XRANGEPLAIN
`[v=\s]*(XID)(?:\.(XID)(?:\.(XID)(?:-PRE)?(\+BUILD)?)?)?`
returning the captures and the unconsumed suffix. -/
def parseXPlain (cs : List Char) : Option (XPlain × List Char) :=
  let junkless := cs.dropWhile (fun c => c = 'v' || c = '=' || isWsChar c)
  match parseXId junkless with
  | none => none
  | some (idM, r1) =>
    let (idm, idp, pr, bld, rest) :=
      match r1 with
      | '.' :: r1' =>
        match parseXId r1' with
        | none => (none, none, none, none, r1)
        | some (idm, r2) =>
          match r2 with
          | '.' :: r2' =>
            match parseXId r2' with
            | none => (some idm, none, none, none, r2)
            | some (idp, r3) =>
              let (pr, r4) :=
                match r3 with
                | '-' :: r3' =>
                  match parseChunks preChunkOk (r3'.length + 1) r3' with
                  | some (chs, r) => (some (List.intercalate ['.'] chs), r)
                  | none => (none, r3)
                | _ => (none, r3)
              let (bld, r5) :=
                match r4 with
                | '+' :: r4' =>
                  match parseChunks buildChunkOk (r4'.length + 1) r4' with
                  | some (chs, r) => (some (List.intercalate ['.'] chs), r)
                  | none => (none, r4)
                | _ => (none, r4)
              (some idm, some idp, pr, bld, r5)
          | _ => (some idm, none, none, none, r2)
      | _ => (none, none, none, none, r1)
    some ({ text := cs.take (cs.length - rest.length), cM := idM, cm := idm
            cp := idp, pr := pr, bld := bld }, rest)

/-- Numeric value of a concrete capture (callers only use it under isX = false). -/
def xVal : Option XId → Nat
  | some (.num n) => n
  | _ => 0

/-- The string fragment `M.m.0`-style rendering helpers. -/
def dotted (a b c : List Char) : List Char :=
  a ++ '.' :: b ++ '.' :: c

/-- Render a natural as its capture text. -/
def numText (n : Nat) : List Char := (Nat.repr n).data

/-- hyphenReplace: rewrite `A - B` into bounds, filling missing components
(inclusive >= lower bound, exclusive or prerelease-aware <= upper bound). -/
def hyphenOut (f t : XPlain) : List Char :=
  let lo :=
    if isX (some f.cM) then []
    else if isX f.cm then '>' :: '=' :: (f.cM.text ++ ".0.0".data)
    else if isX f.cp then '>' :: '=' :: dotted f.cM.text (xVal f.cm).repr.data ['0']
    else '>' :: '=' :: f.text
  let hi :=
    if isX (some t.cM) then []
    else if isX t.cm then '<' :: (numText (incCapture (xVal (some t.cM))) ++ ".0.0".data)
    else if isX t.cp then '<' :: dotted t.cM.text (numText (incCapture (xVal t.cm))) ['0']
    else match t.pr with
      | some pr => '<' :: '=' :: (dotted t.cM.text (xVal t.cm).repr.data (xVal t.cp).repr.data ++ '-' :: pr)
      | none => '<' :: '=' :: t.text
  trimChars (lo ++ ' ' :: hi)

/-- The anchored HYPHENRANGE rewrite `^\s*(XP)\s+-\s+(XP)\s*$`; when the
pattern does not match the clause is returned unchanged. -/
def hyphenReplaceF (cs : List Char) : List Char :=
  let r0 := cs.dropWhile isWsChar
  match parseXPlain r0 with
  | none => cs
  | some (f, r1) =>
    let ws1 := r1.takeWhile isWsChar
    if ws1.isEmpty then cs
    else match r1.dropWhile isWsChar with
      | '-' :: r2 =>
        let ws2 := r2.takeWhile isWsChar
        if ws2.isEmpty then cs
        else match parseXPlain (r2.dropWhile isWsChar) with
          | none => cs
          | some (t, r3) =>
            if (r3.dropWhile isWsChar).isEmpty then hyphenOut f t else cs
      | _ => cs

/-- replaceTilde on one token: anchored `^(?:~>?)XRANGEPLAIN$`. -/
def replaceTildeTok (cs : List Char) : List Char :=
  match cs with
  | '~' :: rest =>
    let rest := match rest with | '>' :: r => r | r => r
    (match parseXPlain rest with
     | none => cs
     | some (xp, tail) =>
       if !tail.isEmpty then cs
       else
         if isX (some xp.cM) then []
         else if isX xp.cm then
           '>' :: '=' :: (xp.cM.text ++ ".0.0 <".data ++ numText (incCapture (xVal (some xp.cM))) ++ ".0.0".data)
         else if isX xp.cp then
           '>' :: '=' :: (dotted xp.cM.text (xVal xp.cm).repr.data ['0'] ++ " <".data ++
             dotted xp.cM.text (numText (incCapture (xVal xp.cm))) ['0'])
         else match xp.pr with
           | some pr =>
             '>' :: '=' :: (dotted xp.cM.text (xVal xp.cm).repr.data (xVal xp.cp).repr.data ++ '-' :: pr ++
               " <".data ++ dotted xp.cM.text (numText (incCapture (xVal xp.cm))) ['0'])
           | none =>
             '>' :: '=' :: (dotted xp.cM.text (xVal xp.cm).repr.data (xVal xp.cp).repr.data ++
               " <".data ++ dotted xp.cM.text (numText (incCapture (xVal xp.cm))) ['0']))
  | _ => cs

/-- replaceCaret on one token: anchored `^(?:\^)XRANGEPLAIN$`, with the
zero-major and zero-minor special cases. -/
def replaceCaretTok (cs : List Char) : List Char :=
  match cs with
  | '^' :: rest =>
    (match parseXPlain rest with
     | none => cs
     | some (xp, tail) =>
       if !tail.isEmpty then cs
       else
         let mT := xp.cM.text
         let mV := xVal (some xp.cM)
         if isX (some xp.cM) then []
         else if isX xp.cm then
           '>' :: '=' :: (mT ++ ".0.0 <".data ++ numText (incCapture mV) ++ ".0.0".data)
         else if isX xp.cp then
           if mT = ['0'] then
             '>' :: '=' :: (dotted mT (xVal xp.cm).repr.data ['0'] ++ " <".data ++
               dotted mT (numText (incCapture (xVal xp.cm))) ['0'])
           else
             '>' :: '=' :: (dotted mT (xVal xp.cm).repr.data ['0'] ++ " <".data ++
               numText (incCapture mV) ++ ".0.0".data)
         else match xp.pr with
           | some pr =>
             if mT = ['0'] then
               if (xVal xp.cm).repr.data = ['0'] then
                 '>' :: '=' :: (dotted mT (xVal xp.cm).repr.data (xVal xp.cp).repr.data ++ '-' :: pr ++
                   " <".data ++ dotted mT (xVal xp.cm).repr.data (numText (incCapture (xVal xp.cp))))
               else
                 '>' :: '=' :: (dotted mT (xVal xp.cm).repr.data (xVal xp.cp).repr.data ++ '-' :: pr ++
                   " <".data ++ dotted mT (numText (incCapture (xVal xp.cm))) ['0'])
             else
               '>' :: '=' :: (dotted mT (xVal xp.cm).repr.data (xVal xp.cp).repr.data ++ '-' :: pr ++
                 " <".data ++ numText (incCapture mV) ++ ".0.0".data)
           | none =>
             if mT = ['0'] then
               if (xVal xp.cm).repr.data = ['0'] then
                 '>' :: '=' :: (dotted mT (xVal xp.cm).repr.data (xVal xp.cp).repr.data ++
                   " <".data ++ dotted mT (xVal xp.cm).repr.data (numText (incCapture (xVal xp.cp))))
               else
                 '>' :: '=' :: (dotted mT (xVal xp.cm).repr.data (xVal xp.cp).repr.data ++
                   " <".data ++ dotted mT (numText (incCapture (xVal xp.cm))) ['0'])
             else
               '>' :: '=' :: (dotted mT (xVal xp.cm).repr.data (xVal xp.cp).repr.data ++
                 " <".data ++ numText (incCapture mV) ++ ".0.0".data))
  | _ => cs

/-- The GTLT capture `((?:<|>)?=?)` as text. -/
def parseGtlt (cs : List Char) : List Char × List Char :=
  match cs with
  | '<' :: '=' :: r => (['<', '='], r)
  | '>' :: '=' :: r => (['>', '='], r)
  | '<' :: r => (['<'], r)
  | '>' :: r => (['>'], r)
  | '=' :: r => (['='], r)
  | r => ([], r)

/-- replaceXRange on one token: anchored `^GTLT\s*XRANGEPLAIN$`, filling
x components according to the operator. -/
def replaceXRangeTok (cs : List Char) : List Char :=
  let (gtlt0, r0) := parseGtlt cs
  match parseXPlain (r0.dropWhile isWsChar) with
  | none => cs
  | some (xp, tail) =>
    if !tail.isEmpty then cs
    else
      let xM := isX (some xp.cM)
      let xm := xM || isX xp.cm
      let xp' := xm || isX xp.cp
      let anyX := xp'
      let gtlt := if gtlt0 = ['='] && anyX then [] else gtlt0
      if xM then
        if gtlt = ['>'] || gtlt = ['<'] then "<0.0.0".data else ['*']
      else if !gtlt.isEmpty && anyX then
        -- at least one of minor/patch is an x: fill with zeros and adjust
        let M0 := xVal (some xp.cM)
        let m0 := if xm then 0 else xVal xp.cm
        if gtlt = ['>'] then
          if xm then '>' :: '=' :: dotted (numText (incCapture M0)) ['0'] ['0']
          else '>' :: '=' :: dotted (numText M0) (numText (incCapture m0)) ['0']
        else if gtlt = ['<', '='] then
          if xm then '<' :: dotted (numText (incCapture M0)) ['0'] ['0']
          else '<' :: dotted (numText M0) (numText (incCapture m0)) ['0']
        else gtlt ++ dotted (numText M0) (numText m0) ['0']
      else if xm then
        '>' :: '=' :: (xp.cM.text ++ ".0.0 <".data ++ numText (incCapture (xVal (some xp.cM))) ++ ".0.0".data)
      else if xp' then
        '>' :: '=' :: (dotted xp.cM.text (xVal xp.cm).repr.data ['0'] ++ " <".data ++
          dotted xp.cM.text (numText (incCapture (xVal xp.cm))) ['0'])
      else cs

/-- Length of a STAR pattern match `(<|>)?=?\s*\*` starting at the head. -/
def starMatchLen (cs : List Char) : Option Nat :=
  let (opLen, r1) :=
    match cs with
    | '<' :: '=' :: r => (2, r)
    | '>' :: '=' :: r => (2, r)
    | '<' :: r => (1, r)
    | '>' :: r => (1, r)
    | '=' :: r => (1, r)
    | r => (0, r)
  let ws := r1.takeWhile isWsChar
  match r1.dropWhile isWsChar with
  | '*' :: _ => some (opLen + ws.length + 1)
  | _ => none

/-- String.replace(re[STAR], ""): delete the leftmost STAR match, if any. -/
def removeFirstStar : List Char → List Char
  | [] => []
  | c :: cs =>
    match starMatchLen (c :: cs) with
    | some n => (c :: cs).drop n
    | none => c :: removeFirstStar cs

/-- Split on runs of whitespace (String.prototype.split with `/\s+/`). -/
def splitWs : List Char → List (List Char)
  | [] => [[]]
  | c :: cs =>
    let rest := splitWs cs
    if isWsChar c then
      match cs with
      | c' :: _ => if isWsChar c' then rest else [] :: rest
      | [] => [] :: rest
    else
      match rest with
      | r :: rs => (c :: r) :: rs
      | [] => [[c]]

/-- Split on a single space (String.prototype.split with a literal space). -/
def splitSpace : List Char → List (List Char)
  | [] => [[]]
  | c :: cs =>
    let rest := splitSpace cs
    if c = ' ' then [] :: rest
    else
      match rest with
      | r :: rs => (c :: r) :: rs
      | [] => [[c]]

/-- Array.prototype.join(" "). -/
def joinSpace (pieces : List (List Char)) : List Char :=
  List.intercalate [' '] pieces

/-- replaceCarets / replaceTildes: trim, split on whitespace, rewrite each
token, re-join with single spaces. -/
def replaceCaretsF (cs : List Char) : List Char :=
  joinSpace ((splitWs (trimChars cs)).map replaceCaretTok)

def replaceTildesF (cs : List Char) : List Char :=
  joinSpace ((splitWs (trimChars cs)).map replaceTildeTok)

/-- replaceXRanges: split on whitespace (no trim), rewrite, re-join. -/
def replaceXRangesF (cs : List Char) : List Char :=
  joinSpace ((splitWs cs).map replaceXRangeTok)

/-- replaceStars: trim then delete the first star pattern. -/
def replaceStarsF (cs : List Char) : List Char :=
  removeFirstStar (trimChars cs)

/-- parseComparator: carets, tildes, x-ranges, stars, in source order. -/
def parseComparatorStr (cs : List Char) : List Char :=
  replaceStarsF (replaceXRangesF (replaceTildesF (replaceCaretsF cs)))

/-- new Comparator(token): the anchored COMPARATOR grammar
`^GTLT\s*(FULLPLAIN)$|^$`; the version part goes through the SemVer
constructor, whose typed errors propagate. -/
def comparatorNew (token : List Char) : Except String Comparator :=
  if token.isEmpty then .ok .any
  else
    let (gtlt, r0) := parseGtlt token
    let rest := r0.dropWhile isWsChar
    match matchFull rest with
    | none => .error ("Invalid comparator: " ++ (⟨token⟩ : String))
    | some _ => do
      let sv ← semverNew ⟨rest⟩
      let o : Op :=
        if gtlt = ['<'] then .lt
        else if gtlt = ['<', '='] then .le
        else if gtlt = ['>'] then .gt
        else if gtlt = ['>', '='] then .ge
        else .eq
      .ok (.op o sv)

/-- Range.parseRange on one ||-clause: trim, hyphen rewrite, whitespace
normalization, per-token shorthand rewriting, re-split, comparator parse. -/
def parseClause (clause : List Char) : Except String (List Comparator) :=
  let c1 := trimChars clause
  let c2 := hyphenReplaceF c1
  let c3 := joinSpace (splitWs c2)
  let tokens := splitSpace c3
  let rewritten := joinSpace (tokens.map parseComparatorStr)
  (splitWs rewritten).mapM comparatorNew

/-- Split a range on `/\s*\|\|\s*/`: literal `||` occurrences with the
adjacent whitespace absorbed into the separator. -/
def splitOnBarBar : List Char → List (List Char)
  | [] => [[]]
  | '|' :: '|' :: cs => [] :: splitOnBarBar cs
  | c :: cs =>
    match splitOnBarBar cs with
    | r :: rs => (c :: r) :: rs
    | [] => [[c]]

def stripRight (cs : List Char) : List Char := (cs.reverse.dropWhile isWsChar).reverse

def stripLeft (cs : List Char) : List Char := cs.dropWhile isWsChar

/-- Strip the separator-adjacent whitespace from the pieces after the first. -/
def stripTail : List (List Char) → List (List Char)
  | [] => []
  | [p] => [stripLeft p]
  | p :: rest => stripLeft (stripRight p) :: stripTail rest

def splitOrSep (cs : List Char) : List (List Char) :=
  match splitOnBarBar cs with
  | [] => []
  | [p] => [p]
  | p :: rest => stripRight p :: stripTail rest

/-- new Range(str, options): split the clauses, parse each (trimmed), keep
the non-empty comparator lists, fail when none remain. -/
def rangeNew (range : String) (opts : Options) : Except String RangeS := do
  let sets ← (splitOrSep range.data).mapM (fun cl => parseClause (trimChars cl))
  let sets := sets.filter (fun c => !c.isEmpty)
  if sets.isEmpty then .error ("Invalid SemVer Range: " ++ range)
  else .ok { set := sets, includePrerelease := opts.includePrerelease }

/-- Exported satisfies: a throw from range construction is swallowed into
false, but Range.test's own version parse is outside the try/catch. -/
def satisfiesE (version range : String) (opts : Options) : Except String Bool :=
  match rangeNew range opts with
  | .error _ => .ok false
  | .ok r => rangeTestStr r version

/-! ### Intersection -/

/-- Array.prototype.every with a possibly-throwing predicate. -/
def allE (f : α → Except ε Bool) : List α → Except ε Bool
  | [] => .ok true
  | x :: xs => do
    let b ← f x
    if b then allE f xs else .ok false

/-- Array.prototype.some with a possibly-throwing predicate. -/
def anyE (f : α → Except ε Bool) : List α → Except ε Bool
  | [] => .ok false
  | x :: xs => do
    let b ← f x
    if b then .ok true else anyE f xs

/-- Comparator.intersects.  When either operator is `""` the source
delegates to `satisfies` over `new Range(other.value, options)`; when both
operators are real it is a pure five-case boolean formula.  In the ordered
comparisons the source rebuilds each semver from its own `version` string
(`new SemVer` on a SemVer re-parses its format), which is the identity on
every constructor-produced value, so they are compared directly. -/
def compIntersects (c1 c2 : Comparator) (opts : Options) : Except String Bool :=
  match c1 with
  | .any => .ok true
  | .op .eq _ => do
    -- this.operator === "" with a pinned version
    let rangeTmp ← rangeNew (Comparator.value c2) opts
    rangeTestStr rangeTmp (Comparator.value c1)
  | .op o1 sv1 =>
    match c2 with
    | .any => .ok true
    | .op .eq sv2 => do
      let rangeTmp ← rangeNew (Comparator.value c1) opts
      .ok (rangeTest rangeTmp sv2)
    | .op o2 sv2 =>
      let sameDirectionIncreasing := (o1 = .ge || o1 = .gt) && (o2 = .ge || o2 = .gt)
      let sameDirectionDecreasing := (o1 = .le || o1 = .lt) && (o2 = .le || o2 = .lt)
      let sameSemVer := sv1.format = sv2.format
      let differentDirectionsInclusive := (o1 = .ge || o1 = .le) && (o2 = .ge || o2 = .le)
      let oppositeDirectionsLessThan :=
        compare sv1 sv2 < 0 && (o1 = .ge || o1 = .gt) && (o2 = .le || o2 = .lt)
      let oppositeDirectionsGreaterThan :=
        compare sv1 sv2 > 0 && (o1 = .le || o1 = .lt) && (o2 = .ge || o2 = .gt)
      .ok (sameDirectionIncreasing || sameDirectionDecreasing ||
        (sameSemVer && differentDirectionsInclusive) ||
        oppositeDirectionsLessThan || oppositeDirectionsGreaterThan)

/-- The isSatisfiable worklist, on the reversed comparator list: pop the
last comparator, require it to intersect all remaining ones, repeat. -/
def isSatLoopRev (opts : Options) : Comparator → List Comparator → Except String Bool
  | _, [] => .ok true
  | t, r :: rs => do
    let res ← allE (fun o => compIntersects t o opts) ((r :: rs).reverse)
    if res then isSatLoopRev opts r rs else .ok false

/-- isSatisfiable(comparators, options). -/
def isSatisfiable (comps : List Comparator) (opts : Options) : Except String Bool :=
  match comps.reverse with
  | [] => .ok true
  | t :: rest => isSatLoopRev opts t rest

/-- Range.intersects: some satisfiable clause of each range with all
comparators pairwise intersecting. -/
def rangeIntersects (r1 r2 : RangeS) (opts : Options) : Except String Bool :=
  anyE (fun tcs => do
    let s1 ← isSatisfiable tcs opts
    if s1 then
      anyE (fun rcs => do
        let s2 ← isSatisfiable rcs opts
        if s2 then allE (fun t => allE (fun r => compIntersects t r opts) rcs) tcs
        else .ok false) r2.set
    else .ok false) r1.set

/-- Exported intersects(range1, range2, options): the ranges are built with
the caller's options, but range1.intersects(range2) is invoked without an
options argument, so the comparator-level logic runs with the defaults. -/
def intersectsStr (r1 r2 : String) (opts : Options) : Except String Bool := do
  let range1 ← rangeNew r1 opts
  let range2 ← rangeNew r2 opts
  rangeIntersects range1 range2 defaultOpts

/-! ### inc -/

/-- Number(s) is NaN, for the identifier bookkeeping in the `pre` step
(`isNaN(this.prerelease[1])`).  Covers the StringNumericLiteral grammar:
optional sign with decimal/Infinity forms, unsigned hex/octal/binary,
empty/whitespace coercing to 0. -/
def strNumberIsNaN (s : String) : Bool :=
  let t := trimChars s.data
  if t.isEmpty then false
  else
    let expOk : List Char → Bool := fun r3 =>
      let r4 := match r3 with | '+' :: r => r | '-' :: r => r | r => r
      !r4.isEmpty && r4.all Char.isDigit
    let dec : List Char → Bool := fun u =>
      -- DecimalDigits [. DecimalDigits?] [Exponent] | . DecimalDigits [Exponent]
      let intPart := u.takeWhile Char.isDigit
      let r1 := u.dropWhile Char.isDigit
      let (fracPart, r2) :=
        match r1 with
        | '.' :: r => (r.takeWhile Char.isDigit, r.dropWhile Char.isDigit)
        | _ => (([] : List Char), r1)
      if intPart.isEmpty && fracPart.isEmpty then false
      else
        match r2 with
        | [] => true
        | 'e' :: r3 => expOk r3
        | 'E' :: r3 => expOk r3
        | _ => false
    let signedBody : List Char → Bool := fun u =>
      u = "Infinity".data || dec u
    let ok :=
      match t with
      | '+' :: r => signedBody r
      | '-' :: r => signedBody r
      | '0' :: 'x' :: r | '0' :: 'X' :: r => !r.isEmpty && r.all (fun c => c.isDigit || ('a' ≤ c && c ≤ 'f') || ('A' ≤ c && c ≤ 'F'))
      | '0' :: 'o' :: r | '0' :: 'O' :: r => !r.isEmpty && r.all (fun c => '0' ≤ c && c ≤ '7')
      | '0' :: 'b' :: r | '0' :: 'B' :: r => !r.isEmpty && r.all (fun c => c = '0' || c = '1')
      | r => signedBody r
    !ok

/-- isNaN applied to `this.prerelease[1]` (undefined is NaN, numbers are
not, strings go through Number coercion). -/
def identIsNaN : Option Ident → Bool
  | none => true
  | some (.num _) => false
  | some (.str s) => strNumberIsNaN s

/-- The `pre` loop: increment the last numeric prerelease identifier,
returning none when there is none. -/
def bumpLastNum : List Ident → Option (List Ident)
  | [] => none
  | x :: xs =>
    match bumpLastNum xs with
    | some xs' => some (x :: xs')
    | none =>
      match x with
      | .num n => some (.num (n + 1) :: xs)
      | .str _ => none

/-- The `case "pre"` body of SemVer.inc, acting on the prerelease list. -/
def incPreList (pre : List Ident) (identifier : Option String) : List Ident :=
  let pre' :=
    if pre.isEmpty then [Ident.num 0]
    else
      match bumpLastNum pre with
      | some p => p
      | none => pre ++ [Ident.num 0]
  match identifier with
  | none => pre'
  | some id =>
    if id.isEmpty then pre'  -- a falsy identifier is ignored
    else
      if pre'.head? = some (.str id) then
        if identIsNaN pre'[1]? then [.str id, .num 0] else pre'
      else [.str id, .num 0]

/-- SemVer.inc(release, identifier): the stateful method, modelled as a
function from the receiver to its new value; an unknown release type throws
the typed invalid-increment error. -/
def SemVer.incM (v : SemVer) (release : String) (identifier : Option String) :
    Except String SemVer :=
  let prePatch : SemVer → SemVer := fun w =>
    -- case "patch"
    { w with patch := if w.prerelease.isEmpty then w.patch + 1 else w.patch
             prerelease := [] }
  let preStep : SemVer → SemVer := fun w =>
    { w with prerelease := incPreList w.prerelease identifier }
  match release with
  | "premajor" =>
    .ok (preStep { v with prerelease := [], patch := 0, minor := 0, major := v.major + 1 })
  | "preminor" =>
    .ok (preStep { v with prerelease := [], patch := 0, minor := v.minor + 1 })
  | "prepatch" =>
    .ok (preStep (prePatch { v with prerelease := [] }))
  | "prerelease" =>
    .ok (preStep (if v.prerelease.isEmpty then prePatch v else v))
  | "major" =>
    .ok { v with major := if v.minor ≠ 0 || v.patch ≠ 0 || v.prerelease.isEmpty
                          then v.major + 1 else v.major
                 minor := 0, patch := 0, prerelease := [] }
  | "minor" =>
    .ok { v with minor := if v.patch ≠ 0 || v.prerelease.isEmpty then v.minor + 1 else v.minor
                 patch := 0, prerelease := [] }
  | "patch" =>
    .ok (prePatch v)
  | "pre" =>
    .ok (preStep v)
  | _ => .error ("invalid increment argument: " ++ release)

/-- Exported inc: constructor and method errors are caught and turned into
null, otherwise the new canonical version string is returned. -/
def incE (version release : String) (identifier : Option String) : Option String :=
  match (do
    let v ← semverNew version
    let w ← v.incM release identifier
    .ok w.format : Except String String) with
  | .error _ => none
  | .ok s => some s

/-! ### sort -/

/-- The comparator passed to Array.prototype.sort by `sort`. -/
def sortLe (a b : SemVer) : Prop := compareBuild a b ≤ 0

instance : DecidableRel sortLe := fun v w => inferInstanceAs (Decidable (compareBuild v w ≤ 0))

/-- The observable effect of `sort(list)`: Array.prototype.sort reorders the
receiver in place and returns it, so the call yields the same (stable-)
sorted array twice — once as the return value and once as the caller's
list.  Stable sorting is modelled with insertion sort (ECMAScript requires
sort stability). -/
structure SortEffect where
  returned : List SemVer
  inputAfter : List SemVer
deriving DecidableEq, Repr

/-- sort(list): sorts in place by compareBuild ascending. -/
def sortEff (l : List SemVer) : SortEffect :=
  let s := l.insertionSort sortLe
  { returned := s, inputAfter := s }

/-- rsort(list): sorts in place by compareBuild descending. -/
def rsortEff (l : List SemVer) : SortEffect :=
  let s := l.insertionSort (fun a b => compareBuild b a ≤ 0)
  { returned := s, inputAfter := s }

/-- Decidable equality of Except values, for evaluating concrete runs. -/
instance {ε α : Type} [DecidableEq ε] [DecidableEq α] : DecidableEq (Except ε α) := fun x y =>
  match x, y with
  | .error a, .error b => decidable_of_iff (a = b) (by simp)
  | .ok a, .ok b => decidable_of_iff (a = b) (by simp)
  | .error _, .ok _ => isFalse (by simp)
  | .ok _, .error _ => isFalse (by simp)

lemma ws_false_of_ge {c : Char} (h : 45 ≤ c.toNat) : isWsChar c = false := by
  simp only [isWsChar, Bool.or_eq_false_iff, decide_eq_false_iff_not]
  refine ⟨⟨⟨⟨⟨?_, ?_⟩, ?_⟩, ?_⟩, ?_⟩, ?_⟩ <;> rintro rfl <;> revert h <;> decide

lemma digit_ge {c : Char} (h : c.isDigit = true) : 45 ≤ c.toNat := by
  simp only [Char.isDigit, Bool.and_eq_true, decide_eq_true_eq, Char.le_def] at h
  obtain ⟨h1, _⟩ := h
  have h1' : ('0').val.toNat ≤ c.val.toNat := h1
  simpa [Char.toNat] using h1'.trans' (by decide)

lemma idChar_ge {c : Char} (h : isIdChar c = true) : 45 ≤ c.toNat := by
  simp only [isIdChar, Bool.or_eq_true, decide_eq_true_eq] at h
  rcases h with (h | h) | h
  · exact digit_ge h
  · simp only [Char.isAlpha, Char.isUpper, Char.isLower, Bool.or_eq_true, Bool.and_eq_true,
      decide_eq_true_eq, Char.le_def] at h
    rcases h with ⟨h1, _⟩ | ⟨h1, _⟩
    · have h1' : ('A').val.toNat ≤ c.val.toNat := h1
      simpa [Char.toNat] using h1'.trans' (by decide)
    · have h1' : ('a').val.toNat ≤ c.val.toNat := h1
      simpa [Char.toNat] using h1'.trans' (by decide)
  · subst h; decide

lemma splitDots_ne_nil (cs : List Char) : splitDots cs ≠ [] := by
  cases cs with
  | nil => simp [splitDots]
  | cons a as =>
    simp only [splitDots]
    split
    · simp
    · cases h : splitDots as <;> simp

lemma splitDots_chars {sec : List Char}
    (h : (splitDots sec).all (fun ch => ch.all isIdChar) = true) :
    ∀ c ∈ sec, c = '.' ∨ isIdChar c = true := by
  induction sec with
  | nil => intro c hc; cases hc
  | cons a cs ih =>
    intro c hc
    simp only [splitDots] at h
    by_cases ha : a = '.'
    · rw [if_pos ha] at h
      simp only [List.all_cons] at h
      rcases List.mem_cons.mp hc with rfl | hc
      · exact Or.inl ha
      · exact ih (by simpa using h) c hc
    · rw [if_neg ha] at h
      rcases hrest : splitDots cs with _ | ⟨r, rs⟩
      · exact absurd hrest (splitDots_ne_nil cs)
      · rw [hrest] at h
        simp only [List.all_cons, Bool.and_eq_true] at h
        rcases List.mem_cons.mp hc with rfl | hc
        · exact Or.inr (by simpa using h.1.1)
        · refine ih ?_ c hc
          rw [hrest]
          simp only [List.all_cons, Bool.and_eq_true]
          exact ⟨h.1.2, h.2⟩

lemma sec_not_ws {sec : List Char} {chunkOk : List Char → Bool}
    (hmono : ∀ ch, chunkOk ch = true → ch.all isIdChar = true)
    (h : (splitDots sec).all chunkOk = true) :
    ∀ c ∈ sec, isWsChar c = false := by
  intro c hc
  have hall : (splitDots sec).all (fun ch => ch.all isIdChar) = true := by
    rw [List.all_eq_true] at h ⊢
    intro ch hch
    exact hmono ch (h ch hch)
  rcases splitDots_chars hall c hc with rfl | hid
  · decide
  · exact ws_false_of_ge (idChar_ge hid)

lemma preChunkOk_chars {ch : List Char} (h : preChunkOk ch = true) : ch.all isIdChar = true := by
  simp only [preChunkOk, Bool.and_eq_true] at h
  exact h.1.2

lemma buildChunkOk_chars {ch : List Char} (h : buildChunkOk ch = true) : ch.all isIdChar = true := by
  simp only [buildChunkOk, Bool.and_eq_true] at h
  exact h.2

lemma tailParse_not_ws {r3 : List Char} {pb : List (List Char) × List (List Char)}
    (h : tailParse r3 = some pb) : ∀ c ∈ r3, isWsChar c = false := by
  unfold tailParse at h
  split at h
  · intro c hc; cases hc
  · -- r3 = '-' :: rest
    rename_i rest
    split at h
    · exact absurd h (by simp)
    next hpre =>
      intro c hc
      rcases List.mem_cons.mp hc with rfl | hc
      · decide
      · rw [← @List.takeWhile_append_dropWhile Char (fun x => decide (x ≠ '+')) rest] at hc
        rcases List.mem_append.mp hc with hc | hc
        · refine sec_not_ws (fun ch => preChunkOk_chars) ?_ c hc
          simpa using hpre
        · split at h
          next hdrop =>
            rw [hdrop] at hc
            cases hc
          next bres hdrop =>
            rw [hdrop] at hc
            split at h
            next hbuild =>
              rcases List.mem_cons.mp hc with rfl | hc
              · decide
              · exact sec_not_ws (fun ch => buildChunkOk_chars) hbuild c hc
            · exact absurd h (by simp)
          next => exact absurd h (by simp)
  · -- r3 = '+' :: bres
    rename_i bres
    split at h
    next hbuild =>
      intro c hc
      rcases List.mem_cons.mp hc with rfl | hc
      · decide
      · exact sec_not_ws (fun ch => buildChunkOk_chars) hbuild c hc
    · exact absurd h (by simp)
  · exact absurd h (by simp)

lemma numIdOk_not_ws {d : List Char} (hd : numIdOk d = true) : ∀ c ∈ d, isWsChar c = false := by
  intro c hc
  simp only [numIdOk, Bool.and_eq_true, List.all_eq_true, decide_eq_true_eq] at hd
  exact ws_false_of_ge (digit_ge (hd.1.2 c hc))

lemma matchCore_not_ws {cs : List Char} {raw : RawVer}
    (h : matchCore cs = some raw) : ∀ c ∈ cs, isWsChar c = false := by
  unfold matchCore at h
  split at h
  · exact absurd h (by simp)
  next h1 =>
    split at h
    next r1' heq1 =>
      split at h
      · exact absurd h (by simp)
      next h2 =>
        split at h
        next r2' heq2 =>
          split at h
          · exact absurd h (by simp)
          next h3 =>
            split at h
            · exact absurd h (by simp)
            next pb heq3 =>
              intro c hc
              rw [← @List.takeWhile_append_dropWhile Char (fun c => c.isDigit) cs, heq1] at hc
              rcases List.mem_append.mp hc with hc | hc
              · exact numIdOk_not_ws (by simpa using h1) c hc
              · rcases List.mem_cons.mp hc with rfl | hc
                · decide
                · rw [← @List.takeWhile_append_dropWhile Char (fun c => c.isDigit) r1', heq2] at hc
                  rcases List.mem_append.mp hc with hc | hc
                  · exact numIdOk_not_ws (by simpa using h2) c hc
                  · rcases List.mem_cons.mp hc with rfl | hc
                    · decide
                    · rw [← @List.takeWhile_append_dropWhile Char (fun c => c.isDigit) r2'] at hc
                      rcases List.mem_append.mp hc with hc | hc
                      · exact numIdOk_not_ws (by simpa using h3) c hc
                      · exact tailParse_not_ws heq3 c hc
        · exact absurd h (by simp)
    · exact absurd h (by simp)

lemma matchFull_not_ws {cs0 : List Char} {raw : RawVer}
    (h : matchFull cs0 = some raw) : ∀ c ∈ cs0, isWsChar c = false := by
  unfold matchFull at h
  split at h
  · intro c hc
    rcases List.mem_cons.mp hc with rfl | hc
    · decide
    · exact matchCore_not_ws h c hc
  · exact matchCore_not_ws h


end SemverSpec

namespace SemverSpec

/-! ## Claim C5: caret desugaring and the zero-major special case -/

/-- C5: the caret shorthand obeys the zero-major special case — `^1.2.3`
rewrites to `>=1.2.3 <2.0.0`, `^0.2.3` to `>=0.2.3 <0.3.0`, `^0.0.3` to
`>=0.0.3 <0.0.4` — and consequently satisfies("0.2.4", "^0.2.3") is true
while satisfies("0.3.0", "^0.2.3") and satisfies("0.0.4", "^0.0.3") are
false. -/
theorem c5_caret_zero_major :
    replaceCaretTok "^1.2.3".data = ">=1.2.3 <2.0.0".data ∧
    replaceCaretTok "^0.2.3".data = ">=0.2.3 <0.3.0".data ∧
    replaceCaretTok "^0.0.3".data = ">=0.0.3 <0.0.4".data ∧
    satisfiesE "0.2.4" "^0.2.3" defaultOpts = .ok true ∧
    satisfiesE "0.3.0" "^0.2.3" defaultOpts = .ok false ∧
    satisfiesE "0.0.4" "^0.0.3" defaultOpts = .ok false := by
  decide

/-! ## Claim C10: the canonical formatted string omits build metadata -/

/-- C10: the canonical formatted string depends only on the main triple and
the prerelease list — build metadata never appears in it — and every parse
feeds `valid` through that build-free format; in particular
valid("1.2.3+build.7") returns "1.2.3". -/
theorem c10_format_omits_build :
    (∀ v : SemVer, v.format = SemVer.format { v with build := [] }) ∧
    (∀ (s : String) (v : SemVer), parse s = some v →
      valid s = some (SemVer.format { v with build := [] })) ∧
    valid "1.2.3+build.7" = some "1.2.3" := by
  refine ⟨fun v => rfl, fun s v h => ?_, by decide⟩
  simp only [valid, h, Option.map_some]
  rfl

/-! ## Claim C7: parse never throws and its null conditions -/

lemma dropWhile_eq_self_of_not {p : Char → Bool} {cs : List Char}
    (h : ∀ c ∈ cs, p c = false) : cs.dropWhile p = cs := by
  cases cs with
  | nil => rfl
  | cons a as => simp [List.dropWhile_cons, h a (by simp)]

lemma trim_eq_self_of_not_ws {cs : List Char} (h : ∀ c ∈ cs, isWsChar c = false) :
    trimChars cs = cs := by
  unfold trimChars
  rw [dropWhile_eq_self_of_not h, dropWhile_eq_self_of_not (fun c hc => h c (by simpa using hc)),
    List.reverse_reverse]

/-- A successful untrimmed FULL match makes the constructor succeed as soon
as the three main components pass the safe-integer guard. -/
lemma semverNew_of_matchFull {s : String} {raw : RawVer}
    (hlen : s.data.length ≤ 256) (hm : matchFull s.data = some raw)
    (h1 : jsDouble raw.major ≤ maxSafeInteger) (h2 : jsDouble raw.minor ≤ maxSafeInteger)
    (h3 : jsDouble raw.patch ≤ maxSafeInteger) :
    semverNew s = .ok { major := jsDouble raw.major, minor := jsDouble raw.minor
                        patch := jsDouble raw.patch
                        prerelease := raw.pre.map numberify
                        build := raw.build.map (fun cs => (⟨cs⟩ : String)) } := by
  unfold semverNew
  rw [if_neg (by omega), trim_eq_self_of_not_ws (matchFull_not_ws hm), hm]
  dsimp only
  rw [if_neg (by omega), if_neg (by omega), if_neg (by omega)]

/-- C7 as amended: parse returns null — never an exception — on over-long
input, on input failing the FULL grammar, and also on a well-formed input
whose main triple overflows the safe-integer bound; it returns a SemVer for
every well-formed string of at most 256 characters whose coerced main
components stay within MAX_SAFE_INTEGER. -/
theorem c7_parse_null_policy (s : String) :
    (s.data.length > 256 → parse s = none) ∧
    (matchFull s.data = none → parse s = none) ∧
    (∀ raw : RawVer, s.data.length ≤ 256 → matchFull s.data = some raw →
      jsDouble raw.major ≤ maxSafeInteger → jsDouble raw.minor ≤ maxSafeInteger →
      jsDouble raw.patch ≤ maxSafeInteger → ∃ v, parse s = some v) := by
  refine ⟨fun h => ?_, fun h => ?_, fun raw hlen hm h1 h2 h3 => ?_⟩
  · unfold parse
    rw [if_pos h]
  · unfold parse
    rw [h]
    simp
  · unfold parse
    rw [if_neg (by omega), hm]
    exact ⟨_, by rw [semverNew_of_matchFull hlen hm h1 h2 h3]; rfl⟩

/-- C7 witness: the three null conditions and the success case at concrete
inputs. -/
theorem c7_parse_null_policy_witness :
    parse ⟨List.replicate 300 'a'⟩ = none ∧ parse "not-a-version" = none ∧
    ∃ v, parse "1.2.3" = some v :=
  ⟨(c7_parse_null_policy ⟨List.replicate 300 'a'⟩).1
      (by rw [show (⟨List.replicate 300 'a'⟩ : String).data = List.replicate 300 'a' from rfl,
            List.length_replicate]; omega),
   (c7_parse_null_policy "not-a-version").2.1 (by decide),
   (c7_parse_null_policy "1.2.3").2.2 ⟨1, 2, 3, [], []⟩ (by decide) (by decide)
     (by decide) (by decide) (by decide)⟩

/-- C7 counterexample: "9007199254740992.0.0" (major = 2^53) is well-formed
per the FULL grammar and short enough, yet parse returns null because the
constructor rejects the overflowing major — the claim's "returns a SemVer
for every well-formed version string of length at most 256" is false. -/
theorem c7_counterexample :
    (matchFull "9007199254740992.0.0".data).isSome = true ∧
    "9007199254740992.0.0".data.length ≤ 256 ∧
    parse "9007199254740992.0.0" = none := by
  decide

/-! ## Claim C2: the error policy of satisfies -/

/-- C2 counterexample: with a perfectly valid range, a malformed version
string makes satisfies throw the typed version error instead of returning
the sentinel false — Range.test parses the version outside any try/catch. -/
theorem c2_counterexample :
    satisfiesE "not-a-version" "1.2.3" defaultOpts =
      .error "Invalid Version: not-a-version" := by
  decide

/-- C2 as amended: satisfies swallows only range-construction errors into
false; when the range parses and the version string is malformed, the typed
version error propagates to the caller. -/
theorem c2_satisfies_error_policy (version range : String) (opts : Options) :
    (∀ e, rangeNew range opts = .error e → satisfiesE version range opts = .ok false) ∧
    (∀ r msg, rangeNew range opts = .ok r → semverNew version = .error msg →
      satisfiesE version range opts = .error msg) := by
  constructor
  · intro e he
    unfold satisfiesE
    rw [he]
  · intro r msg hr hv
    unfold satisfiesE
    rw [hr]
    unfold rangeTestStr
    rw [hv]
    rfl

/-- C2 witness: both amended branches at concrete inputs. -/
theorem c2_satisfies_error_policy_witness :
    satisfiesE "9.9.9" "not a ^valid range !!" defaultOpts = .ok false ∧
    satisfiesE "not-a-version" "*" defaultOpts = .error "Invalid Version: not-a-version" :=
  ⟨(c2_satisfies_error_policy "9.9.9" "not a ^valid range !!" defaultOpts).1
      "Invalid comparator: not" (by decide),
   (c2_satisfies_error_policy "not-a-version" "*" defaultOpts).2
      ⟨[[.any]], false⟩ "Invalid Version: not-a-version" (by decide) (by decide)⟩

/-! ## Claim C8: the error policy of inc -/

lemma exBind_ok {α β : Type} (a : α) (f : α → Except String β) :
    (Except.ok a >>= f) = f a := rfl

lemma exBind_err {α β : Type} (e : String) (f : α → Except String β) :
    ((Except.error e : Except String α) >>= f) = Except.error e := rfl

/-- The release types the SemVer.inc switch accepts. -/
def knownRelease (release : String) : Bool :=
  release = "premajor" || release = "preminor" || release = "prepatch" ||
  release = "prerelease" || release = "major" || release = "minor" ||
  release = "patch" || release = "pre"

/-- C8 counterexample: the exported inc returns the null sentinel — it does
not raise — both for a malformed version and for an unsupported release
type (its body wraps everything in a try/catch returning null). -/
theorem c8_counterexample :
    incE "not-a-version" "major" none = none ∧ incE "1.2.3" "bogus" none = none := by
  decide

/-- C8 as amended: the exported inc swallows constructor and increment
errors into null; the typed invalid-increment error exists only on the
SemVer.inc method, which does raise it for every unsupported release. -/
theorem c8_inc_error_policy (version release : String) (identifier : Option String) :
    (∀ msg, semverNew version = .error msg → incE version release identifier = none) ∧
    (∀ v : SemVer, knownRelease release = false →
      v.incM release identifier = .error ("invalid increment argument: " ++ release)) ∧
    (∀ (v : SemVer) (msg : String), semverNew version = .ok v →
      v.incM release identifier = .error msg → incE version release identifier = none) := by
  refine ⟨fun msg hv => ?_, fun v hrel => ?_, fun v msg hv hm => ?_⟩
  · unfold incE
    simp only [hv, exBind_err]
  · unfold SemVer.incM
    split <;> first
      | rfl
      | simp_all [knownRelease]
  · unfold incE
    simp only [hv, exBind_ok, hm, exBind_err]

/-- C8 witness: the amended branches at concrete inputs. -/
theorem c8_inc_error_policy_witness :
    incE "nope" "major" none = none ∧
    SemVer.incM ⟨1, 2, 3, [], []⟩ "bogus" none = .error "invalid increment argument: bogus" ∧
    incE "1.2.3" "bogus" none = none :=
  ⟨(c8_inc_error_policy "nope" "major" none).1 "Invalid Version: nope" (by decide),
   (c8_inc_error_policy "x" "bogus" none).2.1 ⟨1, 2, 3, [], []⟩ (by decide),
   (c8_inc_error_policy "1.2.3" "bogus" none).2.2 ⟨1, 2, 3, [], []⟩
     "invalid increment argument: bogus" (by decide) (by decide)⟩

/-! ## Claim C9: sort and rsort mutate their input -/

/-- C9 counterexample: sort(list) does not leave the input list unmodified —
Array.prototype.sort reorders the receiver in place. -/
theorem c9_counterexample :
    (sortEff [⟨2, 0, 0, [], []⟩, ⟨1, 0, 0, [], []⟩]).inputAfter ≠
      [⟨2, 0, 0, [], []⟩, ⟨1, 0, 0, [], []⟩] := by
  decide

/-- C9 as amended: sort and rsort sort the input list in place — afterwards
the caller's list holds exactly the returned list, a permutation of the
original (ascending respectively descending compareBuild order) — so the
input keeps its original order only when it was already sorted. -/
theorem c9_sort_in_place (l : List SemVer) :
    (sortEff l).inputAfter = (sortEff l).returned ∧ (sortEff l).returned.Perm l ∧
    (rsortEff l).inputAfter = (rsortEff l).returned ∧ (rsortEff l).returned.Perm l :=
  ⟨rfl, List.perm_insertionSort _ l, rfl, List.perm_insertionSort _ l⟩

/-! ## Claim C1: the prerelease-exclusion rule is per-clause -/

lemma testSet_pre (set : List Comparator) (v : SemVer) (opts : Options)
    (hpre : v.prerelease ≠ []) (hopt : opts.includePrerelease = false) :
    testSet set v opts = (set.all (fun c => c.test v) && set.any (fun c => pins c v)) := by
  unfold testSet
  rw [hopt]
  have hp : (!v.prerelease.isEmpty) = true := by
    simp [List.isEmpty_iff, hpre]
  rw [hp]
  cases h : set.all (fun c => c.test v) <;> simp

/-- C1 as amended: with default options, a prerelease version satisfies the
range iff some clause of the range has all its comparators accept it and
that *same* clause contains a comparator whose own semver pins the
version's exact main triple with a non-empty prerelease. -/
theorem c1_test_prerelease_pin (r : RangeS) (v : SemVer)
    (hpre : v.prerelease ≠ []) (hopt : r.includePrerelease = false) :
    rangeTest r v = true ↔
      ∃ set ∈ r.set, (∀ c ∈ set, c.test v = true) ∧ ∃ c ∈ set, pins c v = true := by
  unfold rangeTest
  rw [List.any_eq_true]
  constructor
  · rintro ⟨set, hset, htest⟩
    rw [testSet_pre set v _ hpre hopt] at htest
    simp only [Bool.and_eq_true, List.all_eq_true, List.any_eq_true] at htest
    exact ⟨set, hset, htest.1, htest.2⟩
  · rintro ⟨set, hset, hall, hany⟩
    refine ⟨set, hset, ?_⟩
    rw [testSet_pre set v _ hpre hopt]
    simp only [Bool.and_eq_true, List.all_eq_true, List.any_eq_true]
    exact ⟨hall, hany⟩

/-- C1 witness: a range pinning `1.2.3-alpha` accepts `1.2.3-beta`. -/
theorem c1_test_prerelease_pin_witness :
    rangeTest ⟨[[.op .ge ⟨1, 2, 3, [.str "alpha"], []⟩]], false⟩
      ⟨1, 2, 3, [.str "beta"], []⟩ = true :=
  (c1_test_prerelease_pin _ _ (by decide) rfl).mpr
    ⟨[.op .ge ⟨1, 2, 3, [.str "alpha"], []⟩], by decide, by decide,
     .op .ge ⟨1, 2, 3, [.str "alpha"], []⟩, by decide, by decide⟩

/-- C1 counterexample: in `>=1.0.0 || <1.2.3-alpha` the first clause fully
accepts `1.2.3-beta` and the *second* clause pins the `1.2.3` prerelease
line, so the claim's "some clause accepts and some clause pins" condition
holds, yet Range.test returns false — the pin must sit in the accepting
clause itself. -/
theorem c1_counterexample :
    rangeNew ">=1.0.0 || <1.2.3-alpha" defaultOpts =
      .ok ⟨[[.op .ge ⟨1, 0, 0, [], []⟩], [.op .lt ⟨1, 2, 3, [.str "alpha"], []⟩]], false⟩ ∧
    ([Comparator.op .ge ⟨1, 0, 0, [], []⟩].all
      (fun c => c.test ⟨1, 2, 3, [.str "beta"], []⟩)) = true ∧
    pins (.op .lt ⟨1, 2, 3, [.str "alpha"], []⟩) ⟨1, 2, 3, [.str "beta"], []⟩ = true ∧
    rangeTest ⟨[[.op .ge ⟨1, 0, 0, [], []⟩], [.op .lt ⟨1, 2, 3, [.str "alpha"], []⟩]], false⟩
      ⟨1, 2, 3, [.str "beta"], []⟩ = false ∧
    satisfiesE "1.2.3-beta" ">=1.0.0 || <1.2.3-alpha" defaultOpts = .ok false := by
  decide
/-! ## Claim C4: prerelease precedence -/

/-- A prerelease identifier on which the IEEE-double coercion in
compareIdentifiers is faithful: stored numbers (always below the
safe-integer bound), and strings that do not consist solely of digits.
Digit-only string identifiers (values at or above MAX_SAFE_INTEGER) are
unsafe: distinct ones can coerce to the same double. -/
def IdentSafe : Ident → Bool
  | .num _ => true
  | .str s => !identNumeric (.str s)

def specIdentCompare : Ident → Ident → Int
  | .num a, .num b => if a = b then 0 else if a < b then -1 else 1
  | .num _, .str _ => -1
  | .str _, .num _ => 1
  | .str a, .str b => if a = b then 0 else if strLtChars a.data b.data then -1 else 1

/-- The claim's positional comparison, identifier by identifier: numeric
identifiers compare as numbers, a numeric identifier sorts below an
alphanumeric one, strings compare lexicographically, a strict prefix is
smaller. -/
def specPreCompare : List Ident → List Ident → Int
  | [], [] => 0
  | [], _ :: _ => -1
  | _ :: _, [] => 1
  | a :: as, b :: bs =>
    let c := specIdentCompare a b
    if c ≠ 0 then c else specPreCompare as bs

/-- The claim's full prerelease rule: an empty prerelease list (a release)
is greater than any non-empty one, two releases tie, otherwise positional. -/
def claimPreCompare : List Ident → List Ident → Int
  | [], [] => 0
  | [], _ :: _ => 1
  | _ :: _, [] => -1
  | p, q => specPreCompare p q

lemma identNumeric_num (x : Nat) : identNumeric (.num x) = true := rfl

lemma ci_num_num (x y : Nat) :
    compareIdentifiers (.num x) (.num y) = if x = y then 0 else if x < y then -1 else 1 := rfl

lemma ci_eq_spec {a b : Ident} (ha : IdentSafe a = true) (hb : IdentSafe b = true) :
    compareIdentifiers a b = specIdentCompare a b := by
  cases a with
  | num x =>
    cases b with
    | num y => rfl
    | str t =>
      have hb' : identNumeric (Ident.str t) = false := by simpa [IdentSafe] using hb
      simp [compareIdentifiers, specIdentCompare, hb', identNumeric_num]
  | str s =>
    cases b with
    | num y =>
      have ha' : identNumeric (Ident.str s) = false := by simpa [IdentSafe] using ha
      simp [compareIdentifiers, specIdentCompare, ha', identNumeric_num]
    | str t =>
      have ha' : identNumeric (Ident.str s) = false := by simpa [IdentSafe] using ha
      have hb' : identNumeric (Ident.str t) = false := by simpa [IdentSafe] using hb
      simp [compareIdentifiers, specIdentCompare, ha', hb', identLt]

lemma spec_refl (a : Ident) : specIdentCompare a a = 0 := by
  cases a <;> simp [specIdentCompare]

lemma ci_zero_iff {a b : Ident} (ha : IdentSafe a = true) (hb : IdentSafe b = true) :
    compareIdentifiers a b = 0 ↔ a = b := by
  rw [ci_eq_spec ha hb]
  constructor
  · intro h
    cases a with
    | num x =>
      cases b with
      | num y =>
        by_cases hxy : x = y
        · exact congrArg Ident.num hxy
        · simp [specIdentCompare, hxy] at h
          split at h <;> simp_all
      | str t => simp [specIdentCompare] at h
    | str s =>
      cases b with
      | num y => simp [specIdentCompare] at h
      | str t =>
        by_cases hst : s = t
        · exact congrArg Ident.str hst
        · simp [specIdentCompare, hst] at h
          split at h <;> simp_all
  · rintro rfl
    exact spec_refl a

lemma cmpIdentList_eq_spec {p q : List Ident}
    (hp : p.all IdentSafe = true) (hq : q.all IdentSafe = true) :
    cmpIdentList p q = specPreCompare p q := by
  induction p generalizing q with
  | nil => cases q <;> rfl
  | cons a as ih =>
    cases q with
    | nil => rfl
    | cons b bs =>
      simp only [List.all_cons, Bool.and_eq_true] at hp hq
      by_cases hab : a = b
      · subst hab
        simp only [cmpIdentList, if_pos rfl, specPreCompare]
        rw [ih hp.2 hq.2]
        simp [spec_refl]
      · have hne : specIdentCompare a b ≠ 0 := by
          rw [← ci_eq_spec hp.1 hq.1]
          intro h
          exact hab ((ci_zero_iff hp.1 hq.1).mp h)
        simp only [cmpIdentList, if_neg hab, specPreCompare]
        rw [ci_eq_spec hp.1 hq.1]
        simp [hne]

/-- C4 as amended: on versions with equal main triples whose prerelease
identifiers avoid the digit-only-overflow collapse, compare follows the
claim's positional rule exactly; the four concrete precedence facts hold. -/
theorem c4_prerelease_precedence :
    (∀ v w : SemVer, v.major = w.major → v.minor = w.minor → v.patch = w.patch →
      v.prerelease.all IdentSafe = true → w.prerelease.all IdentSafe = true →
      compare v w = claimPreCompare v.prerelease w.prerelease) ∧
    compareStr "1.0.0" "1.0.0-alpha" = .ok 1 ∧
    compareStr "1.0.0-alpha" "1.0.0-alpha.1" = .ok (-1) ∧
    compareStr "1.0.0-alpha.1" "1.0.0-alpha.beta" = .ok (-1) ∧
    compareStr "1.0.0-beta.2" "1.0.0-beta.11" = .ok (-1) := by
  refine ⟨fun v w hM hm hp hsv hsw => ?_, by decide, by decide, by decide, by decide⟩
  have hmain : compareMain v w = 0 := by
    simp [compareMain, ci_num_num, hM, hm, hp]
  unfold compare
  rw [hmain]
  simp only [ne_eq, not_true_eq_false, if_neg (by simp : ¬(0 : Int) ≠ 0)]
  unfold comparePre
  rcases hv : v.prerelease with _ | ⟨a, as⟩ <;> rcases hw : w.prerelease with _ | ⟨b, bs⟩
  · rfl
  · rfl
  · rfl
  · rw [hv] at hsv
    rw [hw] at hsw
    simp only [List.isEmpty_cons, Bool.not_false, Bool.false_and, Bool.and_false, if_neg,
      Bool.true_and]
    show cmpIdentList (a :: as) (b :: bs) = claimPreCompare (a :: as) (b :: bs)
    rw [cmpIdentList_eq_spec hsv hsw]
    rfl


/-- C4 witness: the positional characterization applied at concrete safe
versions. -/
theorem c4_prerelease_precedence_witness :
    compare ⟨1, 0, 0, [.str "alpha"], []⟩ ⟨1, 0, 0, [.str "alpha", .num 1], []⟩ =
      claimPreCompare [.str "alpha"] [.str "alpha", .num 1] :=
  c4_prerelease_precedence.1 ⟨1, 0, 0, [.str "alpha"], []⟩ ⟨1, 0, 0, [.str "alpha", .num 1], []⟩
    rfl rfl rfl (by decide) (by decide)

/-- C4 counterexample: the distinct digit-only identifiers 9007199254740993
and 9007199254740992 (2^53 + 1 and 2^53) coerce to the same double, so the
two versions compare equal although "numeric identifiers compared as
numbers" demands a strictly positive result. -/
theorem c4_counterexample :
    compareStr "1.0.0-9007199254740993" "1.0.0-9007199254740992" = .ok 0 ∧
    (9007199254740993 : Nat) ≠ 9007199254740992 := by
  decide

/-! ## Claim C3: compare as a total order modulo build -/

lemma strLt_irrefl (a : List Char) : strLtChars a a = false := by
  induction a with
  | nil => rfl
  | cons c cs ih => simp [strLtChars, ih]

lemma strLt_total {a b : List Char} (hab : strLtChars a b = false)
    (hba : strLtChars b a = false) : a = b := by
  induction a generalizing b with
  | nil => cases b with
    | nil => rfl
    | cons y ys => simp [strLtChars] at hab
  | cons x xs ih =>
    cases b with
    | nil => simp [strLtChars] at hba
    | cons y ys =>
      simp only [strLtChars] at hab hba
      by_cases hxy : x.toNat < y.toNat
      · simp [hxy] at hab
      · by_cases hyx : y.toNat < x.toNat
        · simp [hxy, hyx] at hba
        · have hxyv : x.toNat = y.toNat :=
            Nat.le_antisymm (Nat.le_of_not_lt hyx) (Nat.le_of_not_lt hxy)
          have hx : x = y := Char.ext (UInt32.ext (by simpa [Char.toNat] using hxyv))
          subst hx
          simp only [if_neg hxy, if_neg hyx] at hab hba
          rw [ih hab hba]

lemma strLt_asymm {a b : List Char} (h : strLtChars a b = true) : strLtChars b a = false := by
  induction a generalizing b with
  | nil => cases b with
    | nil => simp [strLtChars] at h
    | cons y ys => rfl
  | cons x xs ih =>
    cases b with
    | nil => simp [strLtChars] at h
    | cons y ys =>
      simp only [strLtChars] at h ⊢
      by_cases hxy : x.toNat < y.toNat
      · simp [hxy, Nat.lt_asymm hxy]
      · by_cases hyx : y.toNat < x.toNat
        · simp [hxy, hyx] at h
        · simp only [if_neg hxy, if_neg hyx] at h ⊢
          exact ih h

lemma strLt_trans {a b c : List Char} (hab : strLtChars a b = true)
    (hbc : strLtChars b c = true) : strLtChars a c = true := by
  induction a generalizing b c with
  | nil =>
    cases c with
    | nil => cases b with
      | nil => simpa using hab
      | cons y ys => simp [strLtChars] at hbc
    | cons z zs => rfl
  | cons x xs ih =>
    cases b with
    | nil => simp [strLtChars] at hab
    | cons y ys =>
      cases c with
      | nil => simp [strLtChars] at hbc
      | cons z zs =>
        simp only [strLtChars] at hab hbc ⊢
        by_cases hxy : x.toNat < y.toNat <;> by_cases hyz : y.toNat < z.toNat
        · simp [Nat.lt_trans hxy hyz]
        · by_cases hzy : z.toNat < y.toNat
          · simp [hyz, hzy] at hbc
          · have : y.toNat = z.toNat := Nat.le_antisymm (Nat.le_of_not_lt hzy) (Nat.le_of_not_lt hyz)
            rw [← this]
            simp [hxy]
        · by_cases hyx : y.toNat < x.toNat
          · simp [hxy, hyx] at hab
          · have : x.toNat = y.toNat := Nat.le_antisymm (Nat.le_of_not_lt hyx) (Nat.le_of_not_lt hxy)
            rw [this]
            simp [hyz]
        · by_cases hyx : y.toNat < x.toNat
          · simp [hxy, hyx] at hab
          · by_cases hzy : z.toNat < y.toNat
            · simp [hyz, hzy] at hbc
            · have e1 : x.toNat = y.toNat := Nat.le_antisymm (Nat.le_of_not_lt hyx) (Nat.le_of_not_lt hxy)
              have e2 : y.toNat = z.toNat := Nat.le_antisymm (Nat.le_of_not_lt hzy) (Nat.le_of_not_lt hyz)
              rw [if_neg (by omega), if_neg (by omega)]
              simp only [if_neg hxy, if_neg hyx] at hab
              simp only [if_neg hyz, if_neg hzy] at hbc
              exact ih hab hbc


lemma negTri (x y : Nat) :
    (if x = y then (0 : Int) else if x < y then -1 else 1) =
      -(if y = x then 0 else if y < x then -1 else 1) := by
  rcases Nat.lt_trichotomy x y with h | h | h
  · rw [if_neg (Nat.ne_of_lt h), if_pos h, if_neg (Nat.ne_of_lt h).symm, if_neg (Nat.lt_asymm h)]
  · subst h
    simp
  · rw [if_neg (Nat.ne_of_gt h), if_neg (Nat.lt_asymm h), if_neg (Nat.ne_of_lt h), if_pos h]
    decide

lemma ci_antisym (a b : Ident) : compareIdentifiers a b = -compareIdentifiers b a := by
  by_cases ha : identNumeric a = true <;> by_cases hb : identNumeric b = true
  · simpa only [compareIdentifiers, ha, hb, Bool.and_self, if_true] using
      negTri (identVal a) (identVal b)
  · have hne : a ≠ b := fun e => hb (e ▸ ha)
    have hb' : identNumeric b = false := by simpa using hb
    simp [compareIdentifiers, ha, hb', hne, hne.symm]
  · have hne : a ≠ b := fun e => ha (e ▸ hb)
    have ha' : identNumeric a = false := by simpa using ha
    simp [compareIdentifiers, ha', hb, hne, hne.symm]
  · have ha' : identNumeric a = false := by simpa using ha
    have hb' : identNumeric b = false := by simpa using hb
    by_cases he : a = b
    · subst he
      simp [compareIdentifiers]
    · -- both non-numeric: strings compared lexicographically
      rcases a with x | s
      · simp [identNumeric] at ha'
      rcases b with y | t
      · simp [identNumeric] at hb'

      have hst : s ≠ t := fun e => he (e ▸ rfl)
      simp only [compareIdentifiers, ha', hb', identLt, Bool.false_and, Bool.and_false,
        Bool.false_eq_true, if_false, if_neg he, if_neg (fun e => he (Eq.symm e))]
      by_cases hlt : strLtChars s.data t.data = true
      · rw [if_pos hlt, if_neg (by simp [strLt_asymm hlt])]
      · by_cases hlt2 : strLtChars t.data s.data = true
        · rw [if_neg hlt, if_pos hlt2]
          decide
        · have hd : s.data = t.data := strLt_total (by simpa using hlt) (by simpa using hlt2)
          refine absurd ?_ hst
          cases s
          cases t
          exact congrArg String.mk hd


lemma ci_refl (a : Ident) : compareIdentifiers a a = 0 := by
  by_cases h : identNumeric a = true
  · simp [compareIdentifiers, h]
  · simp [compareIdentifiers, (by simpa using h : identNumeric a = false)]

lemma cmpIdentList_refl (l : List Ident) : cmpIdentList l l = 0 := by
  induction l with
  | nil => rfl
  | cons a as ih => simpa [cmpIdentList] using ih

lemma cmpIdentList_antisym (p q : List Ident) : cmpIdentList p q = -cmpIdentList q p := by
  induction p generalizing q with
  | nil => cases q <;> rfl
  | cons a as ih =>
    cases q with
    | nil => rfl
    | cons b bs =>
      by_cases hab : a = b
      · subst hab
        simpa [cmpIdentList] using ih bs
      · simp only [cmpIdentList, if_neg hab, if_neg (fun e => hab (Eq.symm e))]
        exact ci_antisym a b

lemma comparePre_refl (v : SemVer) : comparePre v v = 0 := by
  unfold comparePre
  cases h : v.prerelease.isEmpty <;> simp [h, cmpIdentList_refl]

lemma comparePre_antisym (v w : SemVer) : comparePre v w = -comparePre w v := by
  unfold comparePre
  cases hv : v.prerelease.isEmpty <;> cases hw : w.prerelease.isEmpty <;>
    simp [hv, hw, cmpIdentList_antisym v.prerelease w.prerelease]

lemma compareMain_refl (v : SemVer) : compareMain v v = 0 := by
  simp [compareMain, ci_refl]

lemma compareMain_antisym (v w : SemVer) : compareMain v w = -compareMain w v := by
  unfold compareMain
  rw [ci_antisym (.num v.major) (.num w.major), ci_antisym (.num v.minor) (.num w.minor),
    ci_antisym (.num v.patch) (.num w.patch)]
  by_cases h1 : compareIdentifiers (.num w.major) (.num v.major) = 0 <;>
    by_cases h2 : compareIdentifiers (.num w.minor) (.num v.minor) = 0 <;>
      simp [h1, h2]

lemma compare_refl (v : SemVer) : compare v v = 0 := by
  simp [compare, compareMain_refl, comparePre_refl]

lemma compare_antisym (v w : SemVer) : compare v w = -compare w v := by
  unfold compare
  rw [compareMain_antisym v w, comparePre_antisym v w]
  by_cases h : compareMain w v = 0 <;> simp [h]


lemma spec_zero_iff (a b : Ident) : specIdentCompare a b = 0 ↔ a = b := by
  cases a with
  | num x =>
    cases b with
    | num y =>
      constructor
      · intro h
        by_cases hxy : x = y
        · exact congrArg Ident.num hxy
        · simp only [specIdentCompare, if_neg hxy] at h
          split at h <;> simp_all
      · intro h
        cases h
        simp [specIdentCompare]
    | str t => simp [specIdentCompare]
  | str s =>
    cases b with
    | num y => simp [specIdentCompare]
    | str t =>
      constructor
      · intro h
        by_cases hst : s = t
        · exact congrArg Ident.str hst
        · simp only [specIdentCompare, if_neg hst] at h
          split at h <;> simp_all
      · intro h
        cases h
        simp [specIdentCompare]

lemma spec_num_lt (x y : Nat) : specIdentCompare (.num x) (.num y) < 0 ↔ x < y := by
  simp only [specIdentCompare]
  split_ifs <;> omega

lemma spec_str_lt (s t : String) :
    specIdentCompare (.str s) (.str t) < 0 ↔ strLtChars s.data t.data = true := by
  simp only [specIdentCompare]
  split_ifs with h1 h2
  · subst h1
    simp [strLt_irrefl]
  · simp [h2]
  · simp_all

lemma spec_lt_trans {a b c : Ident} (hab : specIdentCompare a b < 0)
    (hbc : specIdentCompare b c < 0) : specIdentCompare a c < 0 := by
  cases a with
  | num x =>
    cases c with
    | num z =>
      cases b with
      | num y =>
        rw [spec_num_lt] at hab hbc ⊢
        omega
      | str t =>
        exact absurd hbc (by simp [specIdentCompare])
    | str u => simp [specIdentCompare]
  | str s =>
    cases b with
    | num y => exact absurd hab (by simp [specIdentCompare])
    | str t =>
      cases c with
      | num z => exact absurd hbc (by simp [specIdentCompare])
      | str u =>
        rw [spec_str_lt] at hab hbc ⊢
        exact strLt_trans hab hbc

lemma specPre_le_trans {p q r : List Ident} (hab : specPreCompare p q ≤ 0)
    (hbc : specPreCompare q r ≤ 0) : specPreCompare p r ≤ 0 := by
  induction p generalizing q r with
  | nil => cases r <;> simp [specPreCompare]
  | cons a as ih =>
    cases q with
    | nil => exact absurd hab (by simp [specPreCompare])
    | cons b bs =>
      cases r with
      | nil => exact absurd hbc (by simp [specPreCompare])
      | cons c cs =>
        simp only [specPreCompare] at hab hbc ⊢
        by_cases h1 : specIdentCompare a b = 0 <;> by_cases h2 : specIdentCompare b c = 0
        · have e1 : a = b := (spec_zero_iff a b).mp h1
          have e2 : b = c := (spec_zero_iff b c).mp h2
          subst e1; subst e2
          rw [if_neg (by simp [spec_refl])] at hab hbc ⊢
          exact ih hab hbc
        · have e1 : a = b := (spec_zero_iff a b).mp h1
          subst e1
          rw [if_pos (by simpa using h2)] at hbc ⊢
          exact hbc
        · have e2 : b = c := (spec_zero_iff b c).mp h2
          subst e2
          rw [if_pos (by simpa using h1)] at hab ⊢
          exact hab
        · rw [if_pos (by simpa using h1)] at hab
          rw [if_pos (by simpa using h2)] at hbc
          have := spec_lt_trans (by omega : specIdentCompare a b < 0)
            (by omega : specIdentCompare b c < 0)
          rw [if_pos (by omega)]
          omega


/-- comparePre as a function of the two prerelease lists alone. -/
def preCmpLists : List Ident → List Ident → Int
  | [], [] => 0
  | _ :: _, [] => -1
  | [], _ :: _ => 1
  | p, q => cmpIdentList p q

lemma comparePre_eq_lists (v w : SemVer) :
    comparePre v w = preCmpLists v.prerelease w.prerelease := by
  unfold comparePre preCmpLists
  rcases v.prerelease with _ | ⟨a, as⟩ <;> rcases w.prerelease with _ | ⟨b, bs⟩ <;> simp

lemma preCmpLists_le_trans {p q r : List Ident}
    (hp : p.all IdentSafe = true) (hq : q.all IdentSafe = true) (hr : r.all IdentSafe = true)
    (h1 : preCmpLists p q ≤ 0) (h2 : preCmpLists q r ≤ 0) : preCmpLists p r ≤ 0 := by
  cases p with
  | nil =>
    cases r with
    | nil => simp [preCmpLists]
    | cons c cs =>
      cases q with
      | nil => simp [preCmpLists] at h2
      | cons b bs => simp [preCmpLists] at h1
  | cons a as =>
    cases r with
    | nil => simp [preCmpLists]
    | cons c cs =>
      cases q with
      | nil => simp [preCmpLists] at h2
      | cons b bs =>
        simp only [preCmpLists] at h1 h2 ⊢
        rw [cmpIdentList_eq_spec hp hq] at h1
        rw [cmpIdentList_eq_spec hq hr] at h2
        rw [cmpIdentList_eq_spec hp hr]
        exact specPre_le_trans h1 h2

lemma comparePre_le_trans {u v w : SemVer}
    (hu : u.prerelease.all IdentSafe = true) (hv : v.prerelease.all IdentSafe = true)
    (hw : w.prerelease.all IdentSafe = true)
    (huv : comparePre u v ≤ 0) (hvw : comparePre v w ≤ 0) : comparePre u w ≤ 0 := by
  rw [comparePre_eq_lists] at huv hvw ⊢
  exact preCmpLists_le_trans hu hv hw huv hvw

lemma compareMain_lt_iff (v w : SemVer) :
    compareMain v w < 0 ↔
      (v.major < w.major ∨ (v.major = w.major ∧
        (v.minor < w.minor ∨ (v.minor = w.minor ∧ v.patch < w.patch)))) := by
  simp only [compareMain, ci_num_num]
  split_ifs <;> simp_all

lemma compareMain_zero_iff (v w : SemVer) :
    compareMain v w = 0 ↔ (v.major = w.major ∧ v.minor = w.minor ∧ v.patch = w.patch) := by
  simp only [compareMain, ci_num_num]
  split_ifs <;> simp_all

lemma compareMain_congr_left {u u' : SemVer} (w : SemVer)
    (h1 : u.major = u'.major) (h2 : u.minor = u'.minor) (h3 : u.patch = u'.patch) :
    compareMain u w = compareMain u' w := by
  simp only [compareMain, h1, h2, h3]

lemma compareMain_congr_right (u : SemVer) {w w' : SemVer}
    (h1 : w.major = w'.major) (h2 : w.minor = w'.minor) (h3 : w.patch = w'.patch) :
    compareMain u w = compareMain u w' := by
  simp only [compareMain, h1, h2, h3]

lemma comparePre_congr {u u' w w' : SemVer}
    (h1 : u.prerelease = u'.prerelease) (h2 : w.prerelease = w'.prerelease) :
    comparePre u w = comparePre u' w' := by
  simp only [comparePre, h1, h2]

lemma compare_le_trans {u v w : SemVer}
    (hu : u.prerelease.all IdentSafe = true) (hv : v.prerelease.all IdentSafe = true)
    (hw : w.prerelease.all IdentSafe = true)
    (huv : compare u v ≤ 0) (hvw : compare v w ≤ 0) : compare u w ≤ 0 := by
  unfold compare at huv hvw ⊢
  by_cases m1 : compareMain u v = 0 <;> by_cases m2 : compareMain v w = 0
  · -- triples of u, v, w all equal
    obtain ⟨e1, e2, e3⟩ := (compareMain_zero_iff u v).mp m1
    obtain ⟨f1, f2, f3⟩ := (compareMain_zero_iff v w).mp m2
    have m3 : compareMain u w = 0 := (compareMain_zero_iff u w).mpr
      ⟨e1.trans f1, e2.trans f2, e3.trans f3⟩
    rw [m1] at huv
    rw [m2] at hvw
    rw [m3]
    simp only [ne_eq, not_true_eq_false, reduceIte] at huv hvw ⊢
    exact comparePre_le_trans hu hv hw huv hvw
  · obtain ⟨e1, e2, e3⟩ := (compareMain_zero_iff u v).mp m1
    have hlt2 : compareMain v w < 0 := by
      rw [if_pos m2] at hvw
      omega
    have hlt3 : compareMain u w < 0 := by
      rw [@compareMain_congr_left _ v w e1 e2 e3]
      exact hlt2
    rw [if_pos (by omega)]
    omega
  · obtain ⟨f1, f2, f3⟩ := (compareMain_zero_iff v w).mp m2
    have hlt1 : compareMain u v < 0 := by
      rw [if_pos m1] at huv
      omega
    have hlt3 : compareMain u w < 0 := by
      rw [← @compareMain_congr_right u _ w f1 f2 f3]
      exact hlt1
    rw [if_pos (by omega)]
    omega
  · have hlt1 : compareMain u v < 0 := by
      rw [if_pos m1] at huv
      omega
    have hlt2 : compareMain v w < 0 := by
      rw [if_pos m2] at hvw
      omega
    have hlt3 : compareMain u w < 0 := by
      rw [compareMain_lt_iff] at hlt1 hlt2 ⊢
      omega
    rw [if_pos (by omega)]
    omega


/-- C3 as amended: compare is reflexive and antisymmetric on all versions
and ignores build metadata entirely; it is transitive on versions whose
prerelease identifiers avoid the digit-only-overflow double collapse. -/
theorem c3_compare_order :
    (∀ a : SemVer, compare a a = 0) ∧
    (∀ a b : SemVer, compare a b = -compare b a) ∧
    (∀ (a b : SemVer) (ba bb : List String),
      compare { a with build := ba } { b with build := bb } = compare a b) ∧
    (∀ a b c : SemVer, a.prerelease.all IdentSafe = true →
      b.prerelease.all IdentSafe = true → c.prerelease.all IdentSafe = true →
      compare a b ≤ 0 → compare b c ≤ 0 → compare a c ≤ 0) :=
  ⟨compare_refl, compare_antisym, fun _ _ _ _ => rfl,
   fun _ _ _ ha hb hc => compare_le_trans ha hb hc⟩

/-- C3 witness: build-independence and transitivity applied at concrete
versions. -/
theorem c3_witness :
    compare ⟨1, 2, 3, [.str "rc", .num 1], ["b1"]⟩ ⟨1, 2, 3, [.str "rc", .num 1], ["b2"]⟩ = 0 ∧
    compare ⟨1, 0, 0, [.num 1], []⟩ ⟨2, 0, 0, [], []⟩ ≤ 0 :=
  ⟨by
    have := c3_compare_order.2.2.1 ⟨1, 2, 3, [.str "rc", .num 1], []⟩
      ⟨1, 2, 3, [.str "rc", .num 1], []⟩ ["b1"] ["b2"]
    rw [this]
    exact c3_compare_order.1 _,
   c3_compare_order.2.2.2 ⟨1, 0, 0, [.num 1], []⟩ ⟨1, 5, 0, [], []⟩ ⟨2, 0, 0, [], []⟩
     (by decide) (by decide) (by decide) (by decide) (by decide)⟩

/-- C3 counterexample: with the colliding huge identifiers X = 2^53 + 1 and
Y = 2^53, compare(1.0.0-X.2, 1.0.0-Y.1) = 0 and
compare(1.0.0-Y.1, 1.0.0-X.1) = 0, yet compare(1.0.0-X.2, 1.0.0-X.1) = 1:
the equivalence induced by compare is not transitive, so compare is not a
total order on all valid versions. -/
theorem c3_counterexample :
    compareStr "1.0.0-9007199254740993.2" "1.0.0-9007199254740992.1" = .ok 0 ∧
    compareStr "1.0.0-9007199254740992.1" "1.0.0-9007199254740993.1" = .ok 0 ∧
    compareStr "1.0.0-9007199254740993.2" "1.0.0-9007199254740993.1" = .ok 1 := by
  decide

end SemverSpec





namespace SemverSpec

/-- Strip build metadata (what re-parsing a printed comparator value does). -/
def stripBuild (sv : SemVer) : SemVer := { sv with build := [] }

/-- A constructor-produced semver: re-parsing its canonical format string
restores its comparison-relevant fields (with build dropped, since format
never prints it). -/
def SemVerWF (sv : SemVer) : Prop :=
  semverNew sv.format = .ok (stripBuild sv)

/-- A parse-produced comparator: re-parsing its printed value yields the
single-clause range holding the comparator itself modulo build. -/
def CompWF : Comparator → Prop
  | .any => True
  | .op o sv => SemVerWF sv ∧
      rangeNew (Comparator.value (.op o sv)) defaultOpts =
        .ok ⟨[[.op o (stripBuild sv)]], false⟩

/-- The pairing on which Comparator.intersects is genuinely asymmetric: a
bare pinned comparator whose semver carries a prerelease, against ANY. -/
def badPair : Comparator → Comparator → Bool
  | .op .eq sv, .any => !sv.prerelease.isEmpty
  | _, _ => false

/-- The boolean value Comparator.intersects computes on well-formed
comparators (the delegations to `satisfies` collapse to singleton-clause
testSet evaluations). -/
def interB (c1 c2 : Comparator) : Bool :=
  match c1 with
  | .any => true
  | .op .eq sv1 => testSet [c2] sv1 defaultOpts
  | .op o1 sv1 =>
    match c2 with
    | .any => true
    | .op .eq sv2 => testSet [.op o1 sv1] sv2 defaultOpts
    | .op o2 sv2 =>
        ((o1 = .ge || o1 = .gt) && (o2 = .ge || o2 = .gt)) ||
        ((o1 = .le || o1 = .lt) && (o2 = .le || o2 = .lt)) ||
        (decide (sv1.format = sv2.format) && ((o1 = .ge || o1 = .le) && (o2 = .ge || o2 = .le))) ||
        (decide (compare sv1 sv2 < 0) && (o1 = .ge || o1 = .gt) && (o2 = .le || o2 = .lt)) ||
        (decide (compare sv1 sv2 > 0) && (o1 = .le || o1 = .lt) && (o2 = .ge || o2 = .gt))

lemma rangeNew_empty : rangeNew "" defaultOpts = .ok ⟨[[.any]], false⟩ := by decide

lemma rangeTest_pair (c : Comparator) (v : SemVer) :
    rangeTest ⟨[[c]], false⟩ v = testSet [c] v defaultOpts := by
  simp [rangeTest, defaultOpts]

lemma testSet_strip (c : Comparator) (sv : SemVer) (opts : Options) :
    testSet [c] (stripBuild sv) opts = testSet [c] sv opts := rfl

lemma testSet_strip_comp (o : Op) (sv v : SemVer) (opts : Options) :
    testSet [.op o (stripBuild sv)] v opts = testSet [.op o sv] v opts := rfl

lemma compIntersects_eq_interB {c1 c2 : Comparator} (h1 : CompWF c1) (h2 : CompWF c2) :
    compIntersects c1 c2 defaultOpts = .ok (interB c1 c2) := by
  cases c1 with
  | any => rfl
  | op o1 sv1 =>
    obtain ⟨hsv1, hr1⟩ := h1
    cases o1 with
    | eq =>
      cases c2 with
      | any =>
        show (do
          let rangeTmp ← rangeNew (Comparator.value Comparator.any) defaultOpts
          rangeTestStr rangeTmp (Comparator.value (.op .eq sv1))) = _
        rw [show Comparator.value .any = "" from rfl, rangeNew_empty]
        show rangeTestStr ⟨[[.any]], false⟩ (Comparator.value (.op .eq sv1)) =
          Except.ok (interB (.op .eq sv1) .any)
        unfold rangeTestStr
        rw [show Comparator.value (.op .eq sv1) = sv1.format from rfl, hsv1]
        show Except.ok (rangeTest ⟨[[.any]], false⟩ (stripBuild sv1)) = _
        rw [rangeTest_pair, testSet_strip]
        rfl
      | op o2 sv2 =>
        obtain ⟨hsv2, hr2⟩ := h2
        show (do
          let rangeTmp ← rangeNew (Comparator.value (.op o2 sv2)) defaultOpts
          rangeTestStr rangeTmp (Comparator.value (.op .eq sv1))) = _
        rw [hr2]
        show rangeTestStr ⟨[[.op o2 (stripBuild sv2)]], false⟩ (Comparator.value (.op .eq sv1)) =
          Except.ok (interB (.op .eq sv1) (.op o2 sv2))
        unfold rangeTestStr
        rw [show Comparator.value (.op .eq sv1) = sv1.format from rfl, hsv1]
        show Except.ok (rangeTest ⟨[[.op o2 (stripBuild sv2)]], false⟩ (stripBuild sv1)) = _
        rw [rangeTest_pair, testSet_strip, testSet_strip_comp]
        rfl
    | lt =>
      cases c2 with
      | any => rfl
      | op o2 sv2 =>
        obtain ⟨hsv2, hr2⟩ := h2
        cases o2 with
        | eq =>
          show (do
            let rangeTmp ← rangeNew (Comparator.value (.op .lt sv1)) defaultOpts
            pure (rangeTest rangeTmp sv2)) = _
          rw [hr1]
          show Except.ok (rangeTest ⟨[[.op .lt (stripBuild sv1)]], false⟩ sv2) = _
          rw [rangeTest_pair, testSet_strip_comp]
          rfl
        | lt => rfl
        | le => rfl
        | gt => rfl
        | ge => rfl
    | le =>
      cases c2 with
      | any => rfl
      | op o2 sv2 =>
        obtain ⟨hsv2, hr2⟩ := h2
        cases o2 with
        | eq =>
          show (do
            let rangeTmp ← rangeNew (Comparator.value (.op .le sv1)) defaultOpts
            pure (rangeTest rangeTmp sv2)) = _
          rw [hr1]
          show Except.ok (rangeTest ⟨[[.op .le (stripBuild sv1)]], false⟩ sv2) = _
          rw [rangeTest_pair, testSet_strip_comp]
          rfl
        | lt => rfl
        | le => rfl
        | gt => rfl
        | ge => rfl
    | gt =>
      cases c2 with
      | any => rfl
      | op o2 sv2 =>
        obtain ⟨hsv2, hr2⟩ := h2
        cases o2 with
        | eq =>
          show (do
            let rangeTmp ← rangeNew (Comparator.value (.op .gt sv1)) defaultOpts
            pure (rangeTest rangeTmp sv2)) = _
          rw [hr1]
          show Except.ok (rangeTest ⟨[[.op .gt (stripBuild sv1)]], false⟩ sv2) = _
          rw [rangeTest_pair, testSet_strip_comp]
          rfl
        | lt => rfl
        | le => rfl
        | gt => rfl
        | ge => rfl
    | ge =>
      cases c2 with
      | any => rfl
      | op o2 sv2 =>
        obtain ⟨hsv2, hr2⟩ := h2
        cases o2 with
        | eq =>
          show (do
            let rangeTmp ← rangeNew (Comparator.value (.op .ge sv1)) defaultOpts
            pure (rangeTest rangeTmp sv2)) = _
          rw [hr1]
          show Except.ok (rangeTest ⟨[[.op .ge (stripBuild sv1)]], false⟩ sv2) = _
          rw [rangeTest_pair, testSet_strip_comp]
          rfl
        | lt => rfl
        | le => rfl
        | gt => rfl
        | ge => rfl

end SemverSpec
namespace SemverSpec

lemma testSet_single (c : Comparator) (v : SemVer) :
    testSet [c] v defaultOpts = (c.test v && (v.prerelease.isEmpty || pins c v)) := by
  unfold testSet
  cases h1 : Comparator.test c v <;> cases h2 : v.prerelease.isEmpty <;>
    simp [defaultOpts, h1, h2]

lemma compare_zero_main {v w : SemVer} (h : compare v w = 0) : compareMain v w = 0 := by
  unfold compare at h
  by_cases hm : compareMain v w = 0
  · exact hm
  · rw [if_pos (by simpa using hm)] at h
    exact absurd h hm

lemma compare_zero_pre {v w : SemVer} (h : compare v w = 0) :
    v.prerelease.isEmpty = w.prerelease.isEmpty := by
  have hm := compare_zero_main h
  unfold compare at h
  rw [hm] at h
  simp only [ne_eq, not_true_eq_false, reduceIte] at h
  unfold comparePre at h
  cases h1 : v.prerelease.isEmpty <;> cases h2 : w.prerelease.isEmpty <;>
    rw [h1, h2] at h <;> simp_all

lemma interB_symm {c1 c2 : Comparator} (hb1 : badPair c1 c2 = false)
    (hb2 : badPair c2 c1 = false) : interB c1 c2 = interB c2 c1 := by
  cases c1 with
  | any =>
    cases c2 with
    | any => rfl
    | op o2 sv2 =>
      cases o2 with
      | eq =>
        have hemp : sv2.prerelease.isEmpty = true := by
          simpa [badPair] using hb2
        show true = testSet [.any] sv2 defaultOpts
        rw [testSet_single]
        simp [Comparator.test, hemp]
      | lt => rfl
      | le => rfl
      | gt => rfl
      | ge => rfl
  | op o1 sv1 =>
    cases c2 with
    | any =>
      cases o1 with
      | eq =>
        have hemp : sv1.prerelease.isEmpty = true := by
          simpa [badPair] using hb1
        show testSet [.any] sv1 defaultOpts = true
        rw [testSet_single]
        simp [Comparator.test, hemp]
      | lt => rfl
      | le => rfl
      | gt => rfl
      | ge => rfl
    | op o2 sv2 =>
      cases o1 with
      | eq =>
        cases o2 with
        | eq =>
          show testSet [.op .eq sv2] sv1 defaultOpts = testSet [.op .eq sv1] sv2 defaultOpts
          rw [testSet_single, testSet_single]
          by_cases hc : compare sv1 sv2 = 0
          · have hc' : compare sv2 sv1 = 0 := by
              rw [compare_antisym, hc]
              rfl
            obtain ⟨e1, e2, e3⟩ := (compareMain_zero_iff sv1 sv2).mp (compare_zero_main hc)
            have hpre := compare_zero_pre hc
            simp only [Comparator.test, cmpOp, hc, hc', pins, e1, e2, e3, hpre]
          · have hc' : compare sv2 sv1 ≠ 0 := by
              rw [compare_antisym]
              simpa using hc
            simp [Comparator.test, cmpOp, hc, hc']
        | lt => rfl
        | le => rfl
        | gt => rfl
        | ge => rfl
      | lt =>
        cases o2 <;>
          first
            | rfl
            | (simp only [interB]
               rw [compare_antisym sv1 sv2]
               simp [neg_lt_zero, neg_pos, eq_comm])
      | le =>
        cases o2 <;>
          first
            | rfl
            | (simp only [interB]
               rw [compare_antisym sv1 sv2]
               simp [neg_lt_zero, neg_pos, eq_comm])
      | gt =>
        cases o2 <;>
          first
            | rfl
            | (simp only [interB]
               rw [compare_antisym sv1 sv2]
               simp [neg_lt_zero, neg_pos, eq_comm])
      | ge =>
        cases o2 <;>
          first
            | rfl
            | (simp only [interB]
               rw [compare_antisym sv1 sv2]
               simp [neg_lt_zero, neg_pos, eq_comm])

end SemverSpec
namespace SemverSpec

lemma allE_ok {α : Type} {f : α → Except String Bool} {g : α → Bool} {l : List α}
    (h : ∀ x ∈ l, f x = .ok (g x)) : allE f l = .ok (l.all g) := by
  induction l with
  | nil => rfl
  | cons x xs ih =>
    show (do
      let b ← f x
      if b then allE f xs else .ok false) = _
    rw [h x (by simp), exBind_ok]
    cases hg : g x
    · simp [List.all_cons, hg]
    · simp only [List.all_cons, hg, if_true, Bool.true_and]
      exact ih (fun y hy => h y (by simp [hy]))

lemma anyE_ok {α : Type} {f : α → Except String Bool} {g : α → Bool} {l : List α}
    (h : ∀ x ∈ l, f x = .ok (g x)) : anyE f l = .ok (l.any g) := by
  induction l with
  | nil => rfl
  | cons x xs ih =>
    show (do
      let b ← f x
      if b then .ok true else anyE f xs) = _
    rw [h x (by simp), exBind_ok]
    cases hg : g x
    · simp only [List.any_cons, hg, if_false, Bool.false_or]
      exact ih (fun y hy => h y (by simp [hy]))
    · simp [List.any_cons, hg]

/-- The boolean value of the isSatisfiable worklist on well-formed clauses. -/
def isSatLoopB (t : Comparator) : List Comparator → Bool
  | [] => true
  | r :: rs =>
    if (r :: rs).reverse.all (fun o => interB t o) then isSatLoopB r rs else false

def isSatB (comps : List Comparator) : Bool :=
  match comps.reverse with
  | [] => true
  | t :: rest => isSatLoopB t rest

lemma isSatLoopRev_ok {t : Comparator} {rs : List Comparator}
    (ht : CompWF t) (hrs : ∀ c ∈ rs, CompWF c) :
    isSatLoopRev defaultOpts t rs = .ok (isSatLoopB t rs) := by
  induction rs generalizing t with
  | nil => rfl
  | cons r rs ih =>
    show (do
      let res ← allE (fun o => compIntersects t o defaultOpts) ((r :: rs).reverse)
      if res then isSatLoopRev defaultOpts r rs else .ok false) = _
    rw [allE_ok (fun x hx =>
      compIntersects_eq_interB ht (hrs x (by
        rcases (by simpa using hx : x ∈ rs ∨ x = r) with h | h
        · exact List.mem_cons_of_mem r h
        · simp [h]))), exBind_ok]
    unfold isSatLoopB
    cases hall : (r :: rs).reverse.all (fun o => interB t o)
    · simp [hall]
    · simp only [hall, if_true]
      exact ih (hrs r (by simp)) (fun c hc => hrs c (by simp [hc]))

lemma isSatisfiable_ok {comps : List Comparator} (h : ∀ c ∈ comps, CompWF c) :
    isSatisfiable comps defaultOpts = .ok (isSatB comps) := by
  unfold isSatisfiable isSatB
  rcases hrev : comps.reverse with _ | ⟨t, rest⟩
  · rfl
  · have hmem : ∀ c ∈ t :: rest, CompWF c := by
      intro c hc
      apply h
      rw [← List.mem_reverse, hrev]
      exact hc
    exact isSatLoopRev_ok (hmem t (by simp)) (fun c hc => hmem c (by simp [hc]))

/-- The boolean value of Range.intersects on well-formed ranges. -/
def rangeInterB (r1 r2 : RangeS) : Bool :=
  r1.set.any (fun tcs => isSatB tcs && r2.set.any (fun rcs =>
    isSatB rcs && tcs.all (fun t => rcs.all (fun r => interB t r))))

lemma rangeIntersects_ok {r1 r2 : RangeS}
    (h1 : ∀ cl ∈ r1.set, ∀ c ∈ cl, CompWF c) (h2 : ∀ cl ∈ r2.set, ∀ c ∈ cl, CompWF c) :
    rangeIntersects r1 r2 defaultOpts = .ok (rangeInterB r1 r2) := by
  unfold rangeIntersects rangeInterB
  apply anyE_ok
  intro tcs htcs
  show (do
    let s1 ← isSatisfiable tcs defaultOpts
    if s1 then _ else .ok false) = _
  rw [isSatisfiable_ok (h1 tcs htcs), exBind_ok]
  cases hs1 : isSatB tcs
  · simp [hs1]
  · simp only [if_true, Bool.true_and]
    apply anyE_ok
    intro rcs hrcs
    show (do
      let s2 ← isSatisfiable rcs defaultOpts
      if s2 then _ else .ok false) = _
    rw [isSatisfiable_ok (h2 rcs hrcs), exBind_ok]
    cases hs2 : isSatB rcs
    · simp [hs2]
    · simp only [if_true, Bool.true_and]
      apply allE_ok
      intro t ht
      apply allE_ok
      intro r hr
      exact compIntersects_eq_interB (h1 tcs htcs t ht) (h2 rcs hrcs r hr)

end SemverSpec
namespace SemverSpec

lemma rangeInterB_true_iff (r1 r2 : RangeS) :
    rangeInterB r1 r2 = true ↔
      ∃ tcs ∈ r1.set, isSatB tcs = true ∧ ∃ rcs ∈ r2.set, isSatB rcs = true ∧
        ∀ t ∈ tcs, ∀ r ∈ rcs, interB t r = true := by
  unfold rangeInterB
  simp only [List.any_eq_true, List.all_eq_true, Bool.and_eq_true]

lemma rangeInterB_symm {r1 r2 : RangeS}
    (hb : ∀ cl1 ∈ r1.set, ∀ c1 ∈ cl1, ∀ cl2 ∈ r2.set, ∀ c2 ∈ cl2,
      badPair c1 c2 = false ∧ badPair c2 c1 = false) :
    rangeInterB r1 r2 = rangeInterB r2 r1 := by
  cases h2 : rangeInterB r2 r1 <;> cases h1 : rangeInterB r1 r2
  · rfl
  · exfalso
    obtain ⟨tcs, htcs, hsat, rcs, hrcs, hsat2, hall⟩ := (rangeInterB_true_iff r1 r2).mp h1
    have : rangeInterB r2 r1 = true := (rangeInterB_true_iff r2 r1).mpr
      ⟨rcs, hrcs, hsat2, tcs, htcs, hsat, fun r hr t ht => by
        rw [← interB_symm (hb tcs htcs t ht rcs hrcs r hr).1 (hb tcs htcs t ht rcs hrcs r hr).2]
        exact hall t ht r hr⟩
    rw [h2] at this
    exact Bool.noConfusion this
  · exfalso
    obtain ⟨rcs, hrcs, hsat2, tcs, htcs, hsat, hall⟩ := (rangeInterB_true_iff r2 r1).mp h2
    have : rangeInterB r1 r2 = true := (rangeInterB_true_iff r1 r2).mpr
      ⟨tcs, htcs, hsat, rcs, hrcs, hsat2, fun t ht r hr => by
        rw [interB_symm (hb tcs htcs t ht rcs hrcs r hr).1 (hb tcs htcs t ht rcs hrcs r hr).2]
        exact hall r hr t ht⟩
    rw [h1] at this
    exact Bool.noConfusion this
  · rfl

end SemverSpec
namespace SemverSpec

/-- Boolean checker for comparator well-formedness, so a concrete witness can
discharge `CompWF` by `decide`. -/
def compWFb : Comparator → Bool
  | .any => true
  | .op o sv =>
    decide (semverNew sv.format = .ok (stripBuild sv)) &&
      decide (rangeNew (Comparator.value (.op o sv)) defaultOpts =
        .ok ⟨[[.op o (stripBuild sv)]], false⟩)

lemma compWF_of_b : ∀ {c : Comparator}, compWFb c = true → CompWF c
  | .any, _ => trivial
  | .op o sv, h => by
    unfold compWFb at h
    rw [Bool.and_eq_true, decide_eq_true_iff, decide_eq_true_iff] at h
    exact h

/-- C6 (amended): Range.intersects is symmetric on well-formed ranges as long
as no pinned-prerelease `=` comparator of one range is paired against the ANY
comparator of the other; the asymmetric short-circuit for that pair is the
only source of asymmetry. -/
theorem c6_intersects_symm {r1 r2 : RangeS}
    (h1 : ∀ cl ∈ r1.set, ∀ c ∈ cl, CompWF c)
    (h2 : ∀ cl ∈ r2.set, ∀ c ∈ cl, CompWF c)
    (hb : ∀ cl1 ∈ r1.set, ∀ c1 ∈ cl1, ∀ cl2 ∈ r2.set, ∀ c2 ∈ cl2,
      badPair c1 c2 = false ∧ badPair c2 c1 = false) :
    rangeIntersects r1 r2 defaultOpts = rangeIntersects r2 r1 defaultOpts := by
  rw [rangeIntersects_ok h1 h2, rangeIntersects_ok h2 h1, rangeInterB_symm hb]

/-- C6 witness: the symmetry theorem applied to the parsed forms of the
concrete ranges `>=1.0.0` and `<2.0.0`. -/
theorem c6_intersects_symm_witness :
    rangeIntersects ⟨[[.op .ge ⟨1, 0, 0, [], []⟩]], false⟩
        ⟨[[.op .lt ⟨2, 0, 0, [], []⟩]], false⟩ defaultOpts =
      rangeIntersects ⟨[[.op .lt ⟨2, 0, 0, [], []⟩]], false⟩
        ⟨[[.op .ge ⟨1, 0, 0, [], []⟩]], false⟩ defaultOpts :=
  c6_intersects_symm
    (by
      intro cl hcl c hc
      fin_cases hcl
      fin_cases hc
      exact compWF_of_b (by decide))
    (by
      intro cl hcl c hc
      fin_cases hcl
      fin_cases hc
      exact compWF_of_b (by decide))
    (by decide)

/-- C6 counterexample: the exported intersects is not symmetric as claimed:
the range `1.2.3-alpha` (a pinned-prerelease `=` comparator) against `*`
returns false, while the flipped call returns true. -/
theorem c6_counterexample :
    intersectsStr "1.2.3-alpha" "*" defaultOpts = .ok false ∧
      intersectsStr "*" "1.2.3-alpha" defaultOpts = .ok true := by
  constructor
  · decide
  · decide

end SemverSpec
